import Mathlib

/-!
The package env_parser: binding environment variables to struct fields

A shallow embedding of `model_mapper.go` and `models/errors.go`.

Go strings are modelled as lists of characters (`Str`).  The process
environment (`os.Environ()`) and the platform width of `int`
(`strconv.IntSize`) are explicit arguments.  A run-time panic is an explicit
result (`none`, or `Result.panic`), so that "the call returns" is a statement
about the model.
-/

set_option autoImplicit false

namespace EnvParser

/-- Text: a Go string, as the list of its characters. -/
abbrev Str := List Char

/-! ## The Go library functions the program calls -/

/-- Go `strings.Split(s, sep)` for a separator of one character: the pieces of
`s` between the occurrences of `sep`.  The result is never empty, and the
empty text gives one empty piece. -/
def Split (sep : Char) : Str → List Str
  | [] => [[]]
  | c :: cs =>
    if c = sep then [] :: Split sep cs
    else
      match Split sep cs with
      | [] => [[c]]
      | seg :: segs => (c :: seg) :: segs

/-- Go `unicode.IsSpace`: the Latin-1 spaces tab, line feed, vertical tab, form
feed, carriage return, space, U+0085 and U+00A0, and the other characters of
the Unicode White_Space property. -/
def isSpace (c : Char) : Bool :=
  let n := c.toNat
  (9 ≤ n && n ≤ 13) || n = 32 || n = 0x85 || n = 0xA0 || n = 0x1680 ||
  (0x2000 ≤ n && n ≤ 0x200A) || n = 0x2028 || n = 0x2029 || n = 0x202F ||
  n = 0x205F || n = 0x3000

/-- Drops the trailing white space of a text. -/
def trimRight : Str → Str
  | [] => []
  | c :: cs =>
    match trimRight cs with
    | [] => if isSpace c then [] else [c]
    | r :: rs => c :: r :: rs

/-- Go `strings.TrimSpace`: the text without its leading and trailing white
space. -/
def TrimSpace (s : Str) : Str :=
  trimRight (s.dropWhile isSpace)

/-- Reads a run of decimal digits, most significant first, onto `acc`; `none`
when a character is not one of `0` to `9`. -/
def parseDigits : Str → Nat → Option Nat
  | [], acc => some acc
  | c :: cs, acc =>
    if 48 ≤ c.toNat ∧ c.toNat ≤ 57 then parseDigits cs (acc * 10 + (c.toNat - 48))
    else none

/-- Go `strconv.Atoi` on a platform whose `int` has `intSize` bits: an optional
sign `+` or `-`, then at least one decimal digit and nothing else; the value
must lie in `[-2^(intSize-1), 2^(intSize-1) - 1]`.  `none` stands for a
non-nil error (syntax or range). -/
def Atoi (intSize : Nat) (s : Str) : Option Int :=
  let neg : Bool := s.head? = some '-'
  let ds : Str := if s.head? = some '-' ∨ s.head? = some '+' then s.tail else s
  if ds = [] then none
  else
    match parseDigits ds 0 with
    | none => none
    | some n =>
      let v : Int := if neg then -(n : Int) else (n : Int)
      if -(2 : Int) ^ (intSize - 1) ≤ v ∧ v < (2 : Int) ^ (intSize - 1) then some v
      else none

/-! ## models/errors.go -/

/-- The error value of the package: a message and the name of a field. -/
structure EnvError where
  msg : Str
  field : Str
  deriving DecidableEq, Repr

/-- Method `Error`: the message, then the field name. -/
def EnvError.Error (e : EnvError) : Str :=
  e.msg ++ "; field : ".toList ++ e.field

/-- Method `Field`: stores the field name in the error and returns it. -/
def EnvError.Field (e : EnvError) (field : Str) : EnvError :=
  { e with field := field }

/-- Constructor `MandatoryValueMissing()`. -/
def MandatoryValueMissing : EnvError :=
  { msg := "mandatory value missing in environment".toList, field := [] }

/-- Constructor `OptionalValueMissing()`. -/
def OptionalValueMissing : EnvError :=
  { msg := "optional value missing in environment".toList, field := [] }

/-- Constructor `InvalidTag()`. -/
def InvalidTag : EnvError :=
  { msg := "invalid tag".toList, field := [] }

/-- Constructor `InvalidValue()`. -/
def InvalidValue : EnvError :=
  { msg := "invalid value from environment / default".toList, field := [] }

/-! ## model_mapper.go: constants, metadata and tag parsing -/

/-- Constant `OPTIONAL`. -/
def OPTIONAL : Str := "optional".toList

/-- Constant `MANDATORY`. -/
def MANDATORY : Str := "mandatory".toList

/-- The receiver of `Map`: application name and separator. -/
structure EnvToStruct where
  appName : Str
  separator : Str
  deriving DecidableEq, Repr

/-- Function `NewEnvParser`: both texts empty. -/
def NewEnvParser : EnvToStruct := { appName := [], separator := [] }

/-- Method `Name`: sets the application name. -/
def EnvToStruct.Name (e : EnvToStruct) (name : Str) : EnvToStruct :=
  { e with appName := name }

/-- Method `Separator`: sets the separator. -/
def EnvToStruct.Separator (e : EnvToStruct) (sep : Str) : EnvToStruct :=
  { e with separator := sep }

/-- Per-field working data of one `Map` call. -/
structure fieldMeta where
  position : Nat := 0
  envName : Str := []
  mandatory : Bool := false
  defVal : Str := []
  valueHolder : Str := []
  deriving DecidableEq, Repr

/-- Method `electValue`: the value from the environment, else the default, else
an error that says whether the value was mandatory. -/
def fieldMeta.electValue (f : fieldMeta) : Str × Option EnvError :=
  if f.valueHolder ≠ [] then (f.valueHolder, none)
  else if f.defVal ≠ [] then (f.defVal, none)
  else if f.mandatory then ([], some MandatoryValueMissing)
  else ([], some OptionalValueMissing)

/-- The parsed form of one tag. -/
structure tagInfo where
  name : Str := []
  mandatory : Bool := false
  deftVal : Str := []
  deriving DecidableEq, Repr

/-- The end of `tagParser`, after the mode word has been accepted: the default
is piece 2 when there is one. -/
def tagParserDefault (exploded : List Str) (result : tagInfo) : tagInfo × Option EnvError :=
  if exploded.length < 3 then (result, none)
  else ({ result with deftVal := exploded.getD 2 [] }, none)

/-- Function `tagParser`: the tag is split at every `;`; piece 0 is the name
(trimmed), piece 1 the word `optional` or `mandatory`, piece 2 the default.
The pair is the Go result pair: the record built so far and the error.  Each
index is read under the length test that guards it in the source. -/
def tagParser (tag : Str) : tagInfo × Option EnvError :=
  let result : tagInfo := {}
  if tag.length = 0 then (result, none)
  else
    let exploded := Split ';' tag
    let explodedLength := exploded.length
    if explodedLength < 1 then (result, some InvalidTag)
    else
      let result := { result with name := TrimSpace (exploded.getD 0 []) }
      if result.name = [] then (result, some InvalidTag)
      else if explodedLength < 2 then ({ result with mandatory := false }, none)
      else if exploded.getD 1 [] = OPTIONAL then
        tagParserDefault exploded { result with mandatory := false }
      else if exploded.getD 1 [] = MANDATORY then
        tagParserDefault exploded { result with mandatory := true }
      else (result, some InvalidTag)

/-! ## The environment lookup -/

/-- A Go `map[string]string` as a list of bindings, the newest first: a write
puts its binding in front, and a read takes the first binding of the key, so
a later write to a key replaces the earlier one. -/
abbrev Table := List (Str × Str)

/-- Map read `t[k]` with the `found` flag: `none` when the key is absent. -/
def Table.get : Table → Str → Option Str
  | [], _ => none
  | (k, v) :: rest, key => if k = key then some v else Table.get rest key

/-- The first loop of `envToHolder`: every entry is split at every `=` and
piece 1 is stored under piece 0.  `none` is the index-out-of-range panic of
`exploded[1]` on an entry without `=`. -/
def lookUpTable : List Str → Table → Option Table
  | [], table => some table
  | envVal :: rest, table =>
    let exploded := Split '=' envVal
    if exploded.length < 2 then none
    else lookUpTable rest ((exploded.getD 0 [], exploded.getD 1 []) :: table)

/-- The body of the second loop of `envToHolder` for one field: when the table
has the key `pfx + envName`, the field gets a fresh record with the value
found. -/
def crossCheck (table : Table) (pfx : Str) (fMeta : fieldMeta) : fieldMeta :=
  match table.get (pfx ++ fMeta.envName) with
  | some envVal =>
    { envName := fMeta.envName, defVal := fMeta.defVal, valueHolder := envVal,
      mandatory := fMeta.mandatory, position := fMeta.position }
  | none => fMeta

/-- Method `envToHolder`, with `os.Environ()` as the argument `environ`.  The
metadata map has the keys `0 .. n-1` and is the list of its values; each turn
of the second loop reads and writes its own key only, so the order in which Go
visits the map does not matter.  `none` is a panic. -/
def EnvToStruct.envToHolder (_e : EnvToStruct) (environ : List Str) (pfx : Str)
    (appEnvs : List fieldMeta) : Option (List fieldMeta) :=
  match lookUpTable environ [] with
  | none => none
  | some table => some (appEnvs.map (crossCheck table pfx))

/-! ## The target of `Map`, as reflection sees it -/

/-- The type and value of a struct field.  `reflect.Kind` is `Int` for `int`
and for a defined type over `int`, and `String` likewise; the value behind a
pointer and the values of other kinds are never read or written. -/
inductive FieldValue where
  | int (n : Int)
  | string (s : Str)
  | definedInt (n : Int)
  | definedString (s : Str)
  | nilPointer
  | pointer
  | other
  deriving DecidableEq, Repr

/-- One field of the target struct: its Go name, the value of its `env` tag
key (`Tag.Get("env")`, empty when the key is absent), whether the name is
exported, and its value. -/
structure StructField where
  name : Str
  tag : Str
  exported : Bool
  value : FieldValue
  deriving DecidableEq, Repr

/-- The argument `source` of `Map`. -/
inductive Target where
  /-- the untyped `nil` -/
  | untypedNil
  /-- a nil pointer of some pointer type -/
  | nilPointer
  /-- a non-nil pointer to a struct with these fields -/
  | pointer (fields : List StructField)
  /-- a struct passed by value -/
  | structValue (fields : List StructField)
  /-- a map, slice, channel or function value, nil or not -/
  | nilable (isNil : Bool)
  /-- a non-nil pointer to something that is not a struct -/
  | pointerToOther
  /-- a value of any other kind -/
  | scalar
  deriving DecidableEq, Repr

/-- An `error` result of `Map`: made by `errors.New`, or an `EnvError`. -/
inductive GoError where
  | errorString (s : Str)
  | envError (e : EnvError)
  deriving DecidableEq, Repr

/-- How a call of `Map` ends: it returns `nil`, returns an error, or panics. -/
inductive Result where
  | nil
  | error (err : GoError)
  | panic
  deriving DecidableEq, Repr

/-- Go `reflect.ValueOf(source).IsNil()`: defined for pointers, maps, slices,
channels and functions; `none` is the panic on every other kind and on the
zero `Value` that an untyped nil gives. -/
def Target.IsNil : Target → Option Bool
  | .untypedNil => none
  | .nilPointer => some true
  | .pointer _ => some false
  | .structValue _ => none
  | .nilable isNil => some isNil
  | .pointerToOther => some false
  | .scalar => none

/-- Go `reflect.TypeOf(source).Kind() == reflect.Ptr`. -/
def Target.isPtr : Target → Bool
  | .nilPointer => true
  | .pointer _ => true
  | .pointerToOther => true
  | _ => false

/-- Go `rVFi.CanSet()` after the pointer step of the second loop: an exported
field of the addressable struct can be set; for a pointer field the value is
replaced by what it points to, which for a nil pointer is the zero `Value`
and cannot be set. -/
def CanSet (f : StructField) : Bool :=
  f.exported && decide (f.value ≠ FieldValue.nilPointer)

/-! ## Method `Map` -/

/-- The first loop of `Map` from index `i` on: parses the tag of every field
and stops at the first tag error, which is returned as it is. -/
def tagLoop : Nat → List StructField → Except EnvError (List fieldMeta)
  | _, [] => .ok []
  | i, rTFi :: rest =>
    match tagParser rTFi.tag with
    | (_, some tagEr) => .error tagEr
    | (info, none) =>
      match tagLoop (i + 1) rest with
      | .error tagEr => .error tagEr
      | .ok metas =>
        .ok ({ position := i, envName := info.name, mandatory := info.mandatory,
               defVal := info.deftVal } :: metas)

/-- What one turn of the second loop of `Map` does. -/
inductive Step where
  /-- the loop goes on, the field now being `f` -/
  | next (f : StructField)
  /-- the call ends, the field untouched -/
  | stop (r : Result)
  deriving DecidableEq, Repr

/-- The body of the second loop of `Map` for the field `rTFi` with metadata
`thisMeta`.  `Set` panics when the field has a defined type, to which an `int`
or `string` value is not assignable. -/
def fieldStep (intSize : Nat) (rTFi : StructField) (thisMeta : fieldMeta) : Step :=
  if CanSet rTFi then
    match thisMeta.electValue with
    | (_, some electionError) =>
      if electionError = OptionalValueMissing then .next rTFi
      else .stop (.error (.envError (electionError.Field rTFi.name)))
    | (electedVal, none) =>
      match rTFi.value with
      | .int _ =>
        match Atoi intSize electedVal with
        | none => .stop (.error (.envError (InvalidValue.Field rTFi.name)))
        | some intVal => .next { rTFi with value := .int intVal }
      | .definedInt _ =>
        match Atoi intSize electedVal with
        | none => .stop (.error (.envError (InvalidValue.Field rTFi.name)))
        | some _ => .stop .panic
      | .string _ => .next { rTFi with value := .string electedVal }
      | .definedString _ => .stop .panic
      | _ => .next rTFi
  else .next rTFi

/-- The second loop of `Map` from index `i` on: the fields after it and how
the call ends.  `metaHolder[i]` is the zero record when the key is absent. -/
def assignLoop (intSize : Nat) (metaHolder : List fieldMeta) :
    Nat → List StructField → List StructField × Result
  | _, [] => ([], .nil)
  | i, rTFi :: rest =>
    match fieldStep intSize rTFi (metaHolder.getD i {}) with
    | .next f => ((f :: (assignLoop intSize metaHolder (i + 1) rest).1),
                  (assignLoop intSize metaHolder (i + 1) rest).2)
    | .stop r => (rTFi :: rest, r)

/-- The end of a `Map` call: what it returns or that it panics, and the
argument as it is afterwards. -/
structure Outcome where
  result : Result
  target : Target
  deriving DecidableEq, Repr

/-- Method `Map`, with `os.Environ()` and the width of `int` as arguments. -/
def EnvToStruct.Map (e : EnvToStruct) (environ : List Str) (intSize : Nat)
    (source : Target) : Outcome :=
  match source.IsNil with
  | none => ⟨.panic, source⟩
  | some true => ⟨.error (.errorString "Nil object received for mapping".toList), source⟩
  | some false =>
    if source.isPtr = false then
      ⟨.error (.errorString "Expects pointer to target object".toList), source⟩
    else
      match source with
      | .pointer fields =>
        match tagLoop 0 fields with
        | .error tagEr => ⟨.error (.envError tagEr), source⟩
        | .ok metaHolder =>
          match e.envToHolder environ (e.appName ++ e.separator) metaHolder with
          | none => ⟨.panic, source⟩
          | some metaHolder =>
            ⟨(assignLoop intSize metaHolder 0 fields).2,
             .pointer (assignLoop intSize metaHolder 0 fields).1⟩
      | _ => ⟨.panic, source⟩


/-! ## Notions of the specification, for comparison with the code -/

/-- Spec 4.2: an entry `NAME=VALUE` cut at its first `=` only: the name before
it and the whole text after it. -/
def splitFirstEq (entry : Str) : Str × Str :=
  (entry.takeWhile (fun c => decide (c ≠ '=')),
   (entry.dropWhile (fun c => decide (c ≠ '='))).tail)

/-- Spec 4.2: the value the environment gives to the variable `key`, entries
being cut at their first `=`.  When a name occurs more than once the last
entry counts. -/
def envValue : List Str → Str → Option Str
  | [], _ => none
  | entry :: rest, key =>
    match envValue rest key with
    | some v => some v
    | none => if (splitFirstEq entry).1 = key then some (splitFirstEq entry).2 else none

/-- The resolved text of a field as the claims state it: the value of the
environment for the lookup key when there is one, else the default when it is
not empty. -/
def statedResolvedText (environ : List Str) (key dflt : Str) : Option Str :=
  match envValue environ key with
  | some v => some v
  | none => if dflt = [] then none else some dflt

/-- The resolved text of a field with an empty value of the environment
counted as no value: the value of the environment for the lookup key when
there is one and it is not empty, else the default when it is not empty. -/
def resolvedText (environ : List Str) (key dflt : Str) : Option Str :=
  match envValue environ key with
  | some (c :: cs) => some (c :: cs)
  | _ => if dflt = [] then none else some dflt

/-- The decimal representation of an integer: a minus sign for a negative
number, then the digits of the absolute value. -/
def decimal (n : Int) : Str :=
  if n < 0 then '-' :: Nat.toDigits 10 n.natAbs else Nat.toDigits 10 n.toNat

/-- A text that is a base-10 integer: an optional sign `+` or `-`, then one or
more of the digits `0` to `9` and nothing else. -/
def isDecimalInteger (t : Str) : Bool :=
  let ds : Str := if t.head? = some '-' ∨ t.head? = some '+' then t.tail else t
  !ds.isEmpty && ds.all (fun c => decide (48 ≤ c.toNat ∧ c.toNat ≤ 57))

/-- Whether `reflect.Kind` of the type of the field is `Int` or `String`, the
two kinds that `Map` converts. -/
def FieldValue.isIntOrString : FieldValue → Bool
  | .int _ => true
  | .string _ => true
  | .definedInt _ => true
  | .definedString _ => true
  | _ => false

/-- The metadata that the first loop of `Map` stores for the field `f` at
index `i`. -/
def tagMeta (i : Nat) (f : StructField) : fieldMeta :=
  { position := i, envName := (tagParser f.tag).1.name,
    mandatory := (tagParser f.tag).1.mandatory, defVal := (tagParser f.tag).1.deftVal }

/-- The metadata that `Map` holds when its second loop starts: the parsed tags
with the values of the environment filled in.  Empty when `Map` does not get
that far. -/
def metaHolderOf (e : EnvToStruct) (environ : List Str) (fields : List StructField) :
    List fieldMeta :=
  match tagLoop 0 fields with
  | .error _ => []
  | .ok metaHolder => (e.envToHolder environ (e.appName ++ e.separator) metaHolder).getD []

/-- The record of the specification scenarios: `Port int` tagged
`PORT;mandatory;` and `Host string` tagged `HOST;optional;localhost`. -/
def demoRecord (port : Int) (host : Str) : List StructField :=
  [ { name := "Port".toList, tag := "PORT;mandatory;".toList, exported := true,
      value := .int port },
    { name := "Host".toList, tag := "HOST;optional;localhost".toList, exported := true,
      value := .string host } ]

/-! ## Facts about the library functions -/

theorem Split_nil (sep : Char) : Split sep [] = [[]] := rfl

theorem Split_cons_sep (sep : Char) (cs : Str) :
    Split sep (sep :: cs) = [] :: Split sep cs := by
  simp [Split]

theorem Split_ne_nil (sep : Char) (s : Str) : Split sep s ≠ [] := by
  cases s with
  | nil => simp [Split]
  | cons c cs =>
    by_cases hc : c = sep
    · simp [Split, hc]
    · cases hs : Split sep cs <;> simp [Split, hc, hs]

theorem Split_cons_ne {sep c : Char} (cs : Str) (hc : c ≠ sep) :
    Split sep (c :: cs) = (c :: (Split sep cs).headD []) :: (Split sep cs).tail := by
  cases hs : Split sep cs with
  | nil => exact absurd hs (Split_ne_nil sep cs)
  | cons x xs => simp [Split, hc, hs]

theorem Split_of_not_mem {sep : Char} {s : Str} (h : sep ∉ s) : Split sep s = [s] := by
  induction s with
  | nil => rfl
  | cons c cs ih =>
    have hc : c ≠ sep := fun hcs => h (by simp [hcs])
    have hcs : sep ∉ cs := fun hm => h (List.mem_cons_of_mem _ hm)
    rw [Split_cons_ne cs hc, ih hcs]; rfl

theorem Split_append_sep {sep : Char} {a : Str} (b : Str) (h : sep ∉ a) :
    Split sep (a ++ sep :: b) = a :: Split sep b := by
  induction a with
  | nil => exact Split_cons_sep sep b
  | cons c cs ih =>
    have hc : c ≠ sep := fun hcs => h (by simp [hcs])
    have hcs : sep ∉ cs := fun hm => h (List.mem_cons_of_mem _ hm)
    show Split sep (c :: (cs ++ sep :: b)) = _
    rw [Split_cons_ne _ hc, ih hcs]; rfl

theorem Split_length_pos (sep : Char) (s : Str) : 1 ≤ (Split sep s).length := by
  have := Split_ne_nil sep s
  cases hs : Split sep s with
  | nil => exact absurd hs this
  | cons x xs => simp

theorem Split_length_cons_ne {sep c : Char} (cs : Str) (hc : c ≠ sep) :
    (Split sep (c :: cs)).length = (Split sep cs).length := by
  rw [Split_cons_ne cs hc]
  have := Split_length_pos sep cs
  simp only [List.length_cons, List.length_tail]
  omega

theorem Split_length_of_mem {sep : Char} {s : Str} (h : sep ∈ s) :
    2 ≤ (Split sep s).length := by
  induction s with
  | nil => simp at h
  | cons c cs ih =>
    by_cases hc : c = sep
    · subst hc
      rw [Split_cons_sep]
      have := Split_length_pos c cs
      simp only [List.length_cons]
      omega
    · rw [Split_length_cons_ne cs hc]
      rcases List.mem_cons.mp h with h1 | h1
      · exact absurd h1.symm hc
      · exact ih h1

theorem Split_first (sep : Char) (s : Str) :
    (Split sep s).getD 0 [] = s.takeWhile (fun c => decide (c ≠ sep)) := by
  induction s with
  | nil => rfl
  | cons c cs ih =>
    by_cases hc : c = sep
    · subst hc
      simp [Split_cons_sep]
    · rw [Split_cons_ne cs hc]
      have hne := Split_ne_nil sep cs
      cases hs : Split sep cs with
      | nil => exact absurd hs hne
      | cons x xs =>
        rw [hs] at ih
        simp only [List.getD_cons_zero] at ih
        simp [List.takeWhile_cons, hc, ih]

/-! ## Value election -/

/-- C1: `electValue` has exactly four outcomes, chosen by three tests in
order: the value holder when it is not empty; else the default when it is not
empty; else the error `MandatoryValueMissing` when the field is mandatory;
else the sentinel `OptionalValueMissing`.  The four conditions exclude each
other and cover every case, and the two errors differ. -/
theorem electValue_four_outcomes (f : fieldMeta) :
    (f.valueHolder ≠ [] → f.electValue = (f.valueHolder, none)) ∧
    (f.valueHolder = [] → f.defVal ≠ [] → f.electValue = (f.defVal, none)) ∧
    (f.valueHolder = [] → f.defVal = [] → f.mandatory = true →
      f.electValue = ([], some MandatoryValueMissing)) ∧
    (f.valueHolder = [] → f.defVal = [] → f.mandatory = false →
      f.electValue = ([], some OptionalValueMissing)) ∧
    MandatoryValueMissing ≠ OptionalValueMissing := by
  refine ⟨?_, ?_, ?_, ?_, by decide⟩
  · intro h; simp [fieldMeta.electValue, h]
  · intro h1 h2; simp [fieldMeta.electValue, h1, h2]
  · intro h1 h2 h3; simp [fieldMeta.electValue, h1, h2, h3]
  · intro h1 h2 h3; simp [fieldMeta.electValue, h1, h2, h3]

/-- C1 at a mandatory field with no value and no default. -/
theorem electValue_four_outcomes_witness :
    ({ envName := "PORT".toList, mandatory := true } : fieldMeta).electValue =
      ([], some MandatoryValueMissing) :=
  (electValue_four_outcomes { envName := "PORT".toList, mandatory := true }).2.2.1 rfl rfl rfl

/-! ## Tag parsing -/

theorem semicolon_not_mem_MANDATORY : ';' ∉ MANDATORY := by decide

theorem semicolon_not_mem_OPTIONAL : ';' ∉ OPTIONAL := by decide

theorem MANDATORY_ne_OPTIONAL : MANDATORY ≠ OPTIONAL := by decide

/-- The three pieces of a tag written as name, mode word and default. -/
theorem Split_three {n w d : Str} (hn : ';' ∉ n) (hw : ';' ∉ w) (hd : ';' ∉ d) :
    Split ';' (n ++ ';' :: (w ++ ';' :: d)) = [n, w, d] := by
  rw [Split_append_sep _ hn, Split_append_sep _ hw, Split_of_not_mem hd]

/-- C7: a tag `n;w;d` whose name `n` holds no `;` and is not blank, whose mode
word `w` is `mandatory` or `optional` and whose default `d` holds no `;`
parses without error to the trimmed name, the flag `w = mandatory` and the
default `d` as written; the empty tag parses without error to the empty
record; and `HOST;mandatory;localhost` gives `HOST`, true, `localhost`. -/
theorem tagParser_three_pieces :
    (∀ n w d : Str, ';' ∉ n → TrimSpace n ≠ [] → (w = MANDATORY ∨ w = OPTIONAL) → ';' ∉ d →
      tagParser (n ++ ';' :: (w ++ ';' :: d)) =
        ({ name := TrimSpace n, mandatory := decide (w = MANDATORY), deftVal := d }, none)) ∧
    tagParser [] = ({ name := [], mandatory := false, deftVal := [] }, none) ∧
    tagParser "HOST;mandatory;localhost".toList =
      ({ name := "HOST".toList, mandatory := true, deftVal := "localhost".toList }, none) := by
  refine ⟨?_, by decide, by decide⟩
  intro n w d hn htrim hw hd
  have hwm : ';' ∉ w := by
    rcases hw with h | h
    · rw [h]; exact semicolon_not_mem_MANDATORY
    · rw [h]; exact semicolon_not_mem_OPTIONAL
  have hlen : (n ++ ';' :: (w ++ ';' :: d)).length ≠ 0 := by simp
  rcases hw with h | h
  · subst h
    simp [tagParser, tagParserDefault, Split_three hn hwm hd, htrim, MANDATORY_ne_OPTIONAL]
  · subst h
    simp [tagParser, tagParserDefault, Split_three hn hwm hd, htrim, MANDATORY_ne_OPTIONAL.symm]

/-- C7 at a name with blanks around it and a default with blanks in it. -/
theorem tagParser_three_pieces_witness :
    tagParser (" HOST ".toList ++ ';' :: (OPTIONAL ++ ';' :: " a b ".toList)) =
      ({ name := "HOST".toList, mandatory := false, deftVal := " a b ".toList }, none) :=
  tagParser_three_pieces.1 " HOST ".toList OPTIONAL " a b ".toList (by decide) (by decide)
    (Or.inr rfl) (by decide)

/-- C8: `tagParser` reports an error exactly when the tag is not empty and
either its first piece is blank or there is a second piece that is neither
`mandatory` nor `optional`, compared as written; the error is then
`InvalidTag` and no other error occurs; and when there is no second piece the
record returned has `mandatory = false` and an empty default. -/
theorem tagParser_fails_iff (t : Str) :
    ((tagParser t).2 = some InvalidTag ↔
      t ≠ [] ∧ (TrimSpace ((Split ';' t).getD 0 []) = [] ∨
        (2 ≤ (Split ';' t).length ∧ (Split ';' t).getD 1 [] ≠ MANDATORY ∧
          (Split ';' t).getD 1 [] ≠ OPTIONAL))) ∧
    ((tagParser t).2 = none ∨ (tagParser t).2 = some InvalidTag) ∧
    ((Split ';' t).length < 2 →
      (tagParser t).1.mandatory = false ∧ (tagParser t).1.deftVal = []) := by
  by_cases ht : t = []
  · subst ht
    refine ⟨?_, ?_, ?_⟩ <;> simp [tagParser]
  · have hlen : ¬ t.length = 0 := by simpa using ht
    have hpos : ¬ (Split ';' t).length < 1 := by
      have := Split_length_pos ';' t
      omega
    have hMO := MANDATORY_ne_OPTIONAL
    unfold tagParser tagParserDefault
    simp only [hlen, hpos, if_false]
    generalize (Split ';' t).getD 0 [] = x0
    generalize (Split ';' t).getD 1 [] = x1
    generalize (Split ';' t).getD 2 [] = x2
    generalize (Split ';' t).length = len
    refine ⟨?_, ?_, ?_⟩
    · split_ifs <;> simp_all
    · split_ifs <;> simp
    · intro h2
      split_ifs <;> simp_all

/-- C8 at a tag whose second piece is written with a capital letter. -/
theorem tagParser_fails_iff_witness :
    (tagParser "PORT;Mandatory".toList).2 = some InvalidTag :=
  (tagParser_fails_iff "PORT;Mandatory".toList).1.mpr (by decide)

/-! ## The loops of `Map` -/

theorem tagLoop_ok : ∀ (fields : List StructField) (k : Nat),
    (∀ f ∈ fields, (tagParser f.tag).2 = none) →
    ∃ ms, tagLoop k fields = .ok ms ∧ ms.length = fields.length ∧
      ∀ i f, fields[i]? = some f → ms.getD i {} = tagMeta (k + i) f := by
  intro fields
  induction fields with
  | nil =>
    intro k _
    exact ⟨[], rfl, rfl, by intro i f h; simp at h⟩
  | cons g rest ih =>
    intro k h
    obtain ⟨ms, hms, hlen, hget⟩ := ih (k + 1) (fun f hf => h f (List.mem_cons_of_mem _ hf))
    have hg : (tagParser g.tag).2 = none := h g (List.mem_cons_self _ _)
    refine ⟨tagMeta k g :: ms, ?_, by simp [hlen], ?_⟩
    · unfold tagLoop
      rcases hp : tagParser g.tag with ⟨info, er⟩
      rw [hp] at hg
      simp only at hg
      subst hg
      simp only [hms, tagMeta, hp]
    · intro i f hi
      cases i with
      | zero =>
        simp only [List.getElem?_cons_zero, Option.some.injEq] at hi
        subst hi
        rfl
      | succ i =>
        simp only [List.getElem?_cons_succ] at hi
        have := hget i f hi
        simp only [List.getD_cons_succ]
        rw [this]
        congr 1
        omega

theorem lookUpTable_total : ∀ (environ : List Str) (table : Table),
    (∀ entry ∈ environ, '=' ∈ entry) → ∃ t, lookUpTable environ table = some t := by
  intro environ
  induction environ with
  | nil => intro table _; exact ⟨table, rfl⟩
  | cons entry rest ih =>
    intro table h
    have h2 : ¬ (Split '=' entry).length < 2 := by
      have := Split_length_of_mem (h entry (List.mem_cons_self _ _))
      omega
    unfold lookUpTable
    simp only [h2, if_false]
    exact ih _ (fun x hx => h x (List.mem_cons_of_mem _ hx))

/-- Every binding of the table built comes from the table given or from an
entry of the environment, whose pieces 0 and 1 it holds. -/
theorem lookUpTable_get_sound : ∀ (environ : List Str) (table t : Table) (k v : Str),
    lookUpTable environ table = some t → t.get k = some v →
    table.get k = some v ∨
      ∃ entry ∈ environ, (Split '=' entry).getD 0 [] = k ∧ (Split '=' entry).getD 1 [] = v := by
  intro environ
  induction environ with
  | nil =>
    intro table t k v h hg
    simp only [lookUpTable, Option.some.injEq] at h
    subst h
    exact Or.inl hg
  | cons entry rest ih =>
    intro table t k v h hg
    unfold lookUpTable at h
    by_cases h2 : (Split '=' entry).length < 2
    · simp [h2] at h
    · simp only [h2, if_false] at h
      rcases ih _ t k v h hg with h1 | ⟨x, hx, hx0, hx1⟩
      · unfold Table.get at h1
        by_cases hk : (Split '=' entry).getD 0 [] = k
        · rw [if_pos hk] at h1
          exact Or.inr ⟨entry, List.mem_cons_self _ _, hk, by simpa using h1⟩
        · rw [if_neg hk] at h1
          exact Or.inl h1
      · exact Or.inr ⟨x, List.mem_cons_of_mem _ hx, hx0, hx1⟩

theorem assignLoop_cons_next {intSize : Nat} {mh : List fieldMeta} {k : Nat}
    {g f : StructField} (rest : List StructField)
    (h : fieldStep intSize g (mh.getD k {}) = .next f) :
    assignLoop intSize mh k (g :: rest) =
      (f :: (assignLoop intSize mh (k + 1) rest).1, (assignLoop intSize mh (k + 1) rest).2) := by
  rw [assignLoop]
  simp only [h]

theorem assignLoop_cons_stop {intSize : Nat} {mh : List fieldMeta} {k : Nat}
    {g : StructField} {r : Result} (rest : List StructField)
    (h : fieldStep intSize g (mh.getD k {}) = .stop r) :
    assignLoop intSize mh k (g :: rest) = (g :: rest, r) := by
  rw [assignLoop]
  simp only [h]

/-- A turn of the second loop never stops the call with `nil`. -/
theorem fieldStep_ne_stop_nil (intSize : Nat) (f : StructField) (m : fieldMeta) :
    fieldStep intSize f m ≠ .stop .nil := by
  unfold fieldStep
  repeat (first | split | simp)

theorem assignLoop_length (intSize : Nat) (mh : List fieldMeta) :
    ∀ (fields : List StructField) (k : Nat),
      (assignLoop intSize mh k fields).1.length = fields.length := by
  intro fields
  induction fields with
  | nil => intro k; rfl
  | cons g rest ih =>
    intro k
    cases h : fieldStep intSize g (mh.getD k {}) with
    | next f => rw [assignLoop_cons_next rest h]; simp [ih (k + 1)]
    | stop r => rw [assignLoop_cons_stop rest h]

/-- A field that the second loop reaches: when its turn goes on, the field has
the value of that turn at the end; when its turn stops, the call ends with
that result and the field is as before. -/
theorem assignLoop_reach (intSize : Nat) (mh : List fieldMeta) :
    ∀ (fields : List StructField) (k i : Nat) (f : StructField),
      fields[i]? = some f →
      (∀ j g, j < i → fields[j]? = some g →
        ∃ g2, fieldStep intSize g (mh.getD (k + j) {}) = .next g2) →
      (∀ f2, fieldStep intSize f (mh.getD (k + i) {}) = .next f2 →
        (assignLoop intSize mh k fields).1[i]? = some f2) ∧
      (∀ r, fieldStep intSize f (mh.getD (k + i) {}) = .stop r →
        (assignLoop intSize mh k fields).2 = r ∧
        (assignLoop intSize mh k fields).1[i]? = some f) := by
  intro fields
  induction fields with
  | nil => intro k i f h; simp at h
  | cons g rest ih =>
    intro k i f hi hbefore
    cases i with
    | zero =>
      simp only [List.getElem?_cons_zero, Option.some.injEq] at hi
      subst hi
      simp only [Nat.add_zero]
      constructor
      · intro f2 hstep
        rw [assignLoop_cons_next rest hstep]
        simp
      · intro r hstep
        rw [assignLoop_cons_stop rest hstep]
        simp
    | succ i =>
      simp only [List.getElem?_cons_succ] at hi
      obtain ⟨g2, hg2⟩ := hbefore 0 g (Nat.succ_pos i) (by simp)
      simp only [Nat.add_zero] at hg2
      have hb : ∀ j x, j < i → rest[j]? = some x →
          ∃ x2, fieldStep intSize x (mh.getD (k + 1 + j) {}) = .next x2 := by
        intro j x hj hx
        have := hbefore (j + 1) x (by omega) (by simpa using hx)
        have e : k + 1 + j = k + (j + 1) := by omega
        rw [e]; exact this
      have e : k + 1 + i = k + (i + 1) := by omega
      have := ih (k + 1) i f hi hb
      rw [e] at this
      rw [assignLoop_cons_next rest hg2]
      simp only [List.getElem?_cons_succ]
      exact this

/-- When the second loop ends with `nil`, every turn went on and every field
has the value its turn gave it. -/
theorem assignLoop_nil (intSize : Nat) (mh : List fieldMeta) :
    ∀ (fields : List StructField) (k : Nat),
      (assignLoop intSize mh k fields).2 = .nil →
      ∀ i f, fields[i]? = some f →
        ∃ f2, fieldStep intSize f (mh.getD (k + i) {}) = .next f2 ∧
          (assignLoop intSize mh k fields).1[i]? = some f2 := by
  intro fields
  induction fields with
  | nil => intro k _ i f h; simp at h
  | cons g rest ih =>
    intro k hnil i f hi
    cases hstep : fieldStep intSize g (mh.getD k {}) with
    | stop r =>
      rw [assignLoop_cons_stop rest hstep] at hnil
      simp only at hnil
      subst hnil
      exact absurd hstep (fieldStep_ne_stop_nil _ _ _)
    | next g2 =>
      rw [assignLoop_cons_next rest hstep] at hnil ⊢
      simp only at hnil
      cases i with
      | zero =>
        simp only [List.getElem?_cons_zero, Option.some.injEq] at hi
        subst hi
        exact ⟨g2, hstep, by simp⟩
      | succ i =>
        simp only [List.getElem?_cons_succ] at hi
        obtain ⟨f2, h1, h2⟩ := ih (k + 1) hnil i f hi
        have e : k + 1 + i = k + (i + 1) := by omega
        rw [e] at h1
        exact ⟨f2, h1, by simpa using h2⟩

theorem getD_of_getElem? {α : Type} (l : List α) (i : Nat) (d a : α) (h : l[i]? = some a) :
    l.getD i d = a := by
  simp [List.getD, h]

theorem getElem?_of_getD {α : Type} (l : List α) (i : Nat) (d : α) (h : i < l.length) :
    l[i]? = some (l.getD i d) := by
  simp [List.getD, List.getElem?_eq_getElem h]

/-- The metadata of a field when the second loop of `Map` starts: the parsed
tag with the value that the table has for the key of the field. -/
theorem metaHolderOf_getD (e : EnvToStruct) (environ : List Str) (fields : List StructField)
    (table : Table) (htags : ∀ g ∈ fields, (tagParser g.tag).2 = none)
    (htable : lookUpTable environ [] = some table) (i : Nat) (f : StructField)
    (hi : fields[i]? = some f) :
    (metaHolderOf e environ fields).getD i {} =
      crossCheck table (e.appName ++ e.separator) (tagMeta i f) := by
  obtain ⟨ms, hms, hlen, hget⟩ := tagLoop_ok fields 0 htags
  have hlt : i < fields.length := by
    rcases Nat.lt_or_ge i fields.length with h | h
    · exact h
    · rw [List.getElem?_eq_none h] at hi; cases hi
  have h1 : ms[i]? = some (tagMeta i f) := by
    have := getElem?_of_getD ms i {} (by omega)
    rw [hget i f hi, Nat.zero_add] at this
    exact this
  apply getD_of_getElem?
  simp only [metaHolderOf, hms, EnvToStruct.envToHolder, htable, Option.getD_some,
    List.getElem?_map, h1, Option.map_some']

/-- With valid tags and an environment whose entries all hold `=`, `Map` on a
pointer to a struct is its second loop run on the metadata. -/
theorem Map_pointer_eq (e : EnvToStruct) (environ : List Str) (intSize : Nat)
    (fields : List StructField) (htags : ∀ g ∈ fields, (tagParser g.tag).2 = none)
    (henv : ∀ entry ∈ environ, '=' ∈ entry) :
    e.Map environ intSize (.pointer fields) =
      ⟨(assignLoop intSize (metaHolderOf e environ fields) 0 fields).2,
       .pointer (assignLoop intSize (metaHolderOf e environ fields) 0 fields).1⟩ := by
  obtain ⟨ms, hms, -, -⟩ := tagLoop_ok fields 0 htags
  obtain ⟨table, htable⟩ := lookUpTable_total environ [] henv
  simp only [EnvToStruct.Map, Target.IsNil, Target.isPtr, hms, EnvToStruct.envToHolder, htable,
    metaHolderOf, Option.getD_some]
  rfl

/-! ## The claims about the environment table -/

/-- C5: on the entry `KEY=a=b=c` the table built by `envToHolder` holds the
value `a` under `KEY`, and that is the value the field gets: the entry is cut
at every `=` and only the piece between the first and the second is kept,
while the text after the first `=` is `a=b=c`. -/
theorem lookUpTable_cuts_value_at_second_eq :
    lookUpTable ["KEY=a=b=c".toList] [] = some [("KEY".toList, "a".toList)] ∧
    NewEnvParser.envToHolder ["KEY=a=b=c".toList] [] [{ envName := "KEY".toList }] =
      some [{ envName := "KEY".toList, valueHolder := "a".toList }] ∧
    splitFirstEq "KEY=a=b=c".toList = ("KEY".toList, "a=b=c".toList) := by
  decide

/-- C6: after `envToHolder` with the prefix `a + s` has returned, a field whose
value holder was empty has a non-empty one only if the lookup table has a
binding for the key `a + s + envName`, whose value it then is; and the call
does return when every entry of the environment holds `=`.  With `demo` and
`_` the name `PORT` is filled from `demo_PORT` and not from `PORT`; with both
empty it is filled from `PORT`. -/
theorem envToHolder_key (a s : Str) (m : List fieldMeta) (environ : List Str) :
    ((∀ fm ∈ m, fm.valueHolder = []) →
      ∀ m2, ({ appName := a, separator := s } : EnvToStruct).envToHolder environ (a ++ s) m =
          some m2 →
        m2.length = m.length ∧
        ∀ (i : Nat) (fm fm2 : fieldMeta), m[i]? = some fm → m2[i]? = some fm2 →
          fm2.valueHolder ≠ [] →
          ∃ table, lookUpTable environ [] = some table ∧
            table.get (a ++ s ++ fm.envName) = some fm2.valueHolder) ∧
    ((∀ entry ∈ environ, '=' ∈ entry) →
      ∃ m2, ({ appName := a, separator := s } : EnvToStruct).envToHolder environ (a ++ s) m =
        some m2) ∧
    (({ appName := "demo".toList, separator := "_".toList } : EnvToStruct).envToHolder
        ["PORT=1".toList, "demo_PORT=2".toList] ("demo".toList ++ "_".toList)
        [{ envName := "PORT".toList }] =
      some [{ envName := "PORT".toList, valueHolder := "2".toList }]) ∧
    (({ appName := "demo".toList, separator := "_".toList } : EnvToStruct).envToHolder
        ["PORT=1".toList] ("demo".toList ++ "_".toList) [{ envName := "PORT".toList }] =
      some [{ envName := "PORT".toList, valueHolder := [] }]) ∧
    (NewEnvParser.envToHolder ["PORT=1".toList] (NewEnvParser.appName ++ NewEnvParser.separator)
        [{ envName := "PORT".toList }] =
      some [{ envName := "PORT".toList, valueHolder := "1".toList }]) := by
  refine ⟨?_, ?_, by decide, by decide, by decide⟩
  · intro hempty m2 hret
    unfold EnvToStruct.envToHolder at hret
    cases htable : lookUpTable environ [] with
    | none => simp [htable] at hret
    | some table =>
      simp only [htable, Option.some.injEq] at hret
      subst hret
      refine ⟨by simp, ?_⟩
      intro i fm fm2 hi hi2 hne
      rw [List.getElem?_map, hi] at hi2
      simp only [Option.map_some', Option.some.injEq] at hi2
      subst hi2
      have hfm : fm.valueHolder = [] := hempty fm (List.getElem?_mem hi)
      refine ⟨table, rfl, ?_⟩
      unfold crossCheck at hne ⊢
      rw [List.append_assoc]
      cases hg : table.get (a ++ (s ++ fm.envName)) with
      | none =>
        rw [List.append_assoc] at hne
        simp only [hg] at hne
        exact absurd hfm hne
      | some v => simp only [List.append_assoc, hg]
  · intro henv
    obtain ⟨table, htable⟩ := lookUpTable_total environ [] henv
    exact ⟨m.map (crossCheck table (a ++ s)), by simp [EnvToStruct.envToHolder, htable]⟩

/-- C6 at the prefix `demo_` and an environment with two entries. -/
theorem envToHolder_key_witness :
    [({ envName := "PORT".toList, valueHolder := "2".toList } : fieldMeta)].length =
      [({ envName := "PORT".toList } : fieldMeta)].length ∧
    ∀ (i : Nat) (fm fm2 : fieldMeta), [({ envName := "PORT".toList } : fieldMeta)][i]? = some fm →
      [({ envName := "PORT".toList, valueHolder := "2".toList } : fieldMeta)][i]? = some fm2 →
      fm2.valueHolder ≠ [] →
      ∃ table, lookUpTable ["PORT=1".toList, "demo_PORT=2".toList] [] = some table ∧
        table.get ("demo".toList ++ "_".toList ++ fm.envName) = some fm2.valueHolder :=
  (envToHolder_key "demo".toList "_".toList [{ envName := "PORT".toList }]
    ["PORT=1".toList, "demo_PORT=2".toList]).1 (by decide)
    [{ envName := "PORT".toList, valueHolder := "2".toList }] (by decide)

/-! ## The claims about the target argument -/

/-- C10: `Map` panics on a struct passed by value and on the untyped `nil`,
in the test `IsNil` with which it starts, and leaves the argument as it was;
only the nil pointer gets the error result for a nil target. -/
theorem Map_panics_on_value_and_untyped_nil (e : EnvToStruct) (environ : List Str)
    (intSize : Nat) (fields : List StructField) :
    e.Map environ intSize (.structValue fields) = ⟨.panic, .structValue fields⟩ ∧
    e.Map environ intSize .untypedNil = ⟨.panic, .untypedNil⟩ ∧
    e.Map environ intSize .nilPointer =
      ⟨.error (.errorString "Nil object received for mapping".toList), .nilPointer⟩ := by
  refine ⟨rfl, rfl, rfl⟩

/-! ## Integer conversion -/

theorem digitChar_toNat {d : Nat} (h : d < 10) : (Nat.digitChar d).toNat = 48 + d := by
  interval_cases d <;> rfl

/-- Reading the digits that `toDigitsCore` writes in front of `ds` gives the
number written. -/
theorem parseDigits_toDigitsCore : ∀ (fuel n : Nat) (ds : Str), n < fuel →
    parseDigits (Nat.toDigitsCore 10 fuel n ds) 0 = parseDigits ds n := by
  intro fuel
  induction fuel with
  | zero => intro n ds h; omega
  | succ fuel ih =>
    intro n ds h
    have hd : n % 10 < 10 := Nat.mod_lt _ (by decide)
    have hchar := digitChar_toNat hd
    have hstep : ∀ acc, parseDigits (Nat.digitChar (n % 10) :: ds) acc =
        parseDigits ds (acc * 10 + n % 10) := by
      intro acc
      have h1 : 48 ≤ (Nat.digitChar (n % 10)).toNat ∧ (Nat.digitChar (n % 10)).toNat ≤ 57 := by
        rw [hchar]; omega
      rw [parseDigits, if_pos h1, hchar]
      congr 1
      omega
    unfold Nat.toDigitsCore
    by_cases h0 : n / 10 = 0
    · simp only [h0, if_true]
      rw [hstep 0]
      congr 1
      omega
    · simp only [h0, if_false]
      rw [ih (n / 10) _ (by omega), hstep]
      congr 1
      omega

theorem toDigitsCore_head : ∀ (fuel n : Nat) (ds : Str), 0 < fuel →
    ∃ d rest, d < 10 ∧ Nat.toDigitsCore 10 fuel n ds = Nat.digitChar d :: rest := by
  intro fuel
  induction fuel with
  | zero => intro n ds h; omega
  | succ fuel ih =>
    intro n ds _
    have hd : n % 10 < 10 := Nat.mod_lt _ (by decide)
    unfold Nat.toDigitsCore
    by_cases h0 : n / 10 = 0
    · simp only [h0, if_true]
      exact ⟨n % 10, ds, hd, rfl⟩
    · simp only [h0, if_false]
      cases fuel with
      | zero => exact ⟨n % 10, ds, hd, rfl⟩
      | succ fuel => exact ih (n / 10) _ (Nat.succ_pos _)

theorem parseDigits_toDigits (n : Nat) : parseDigits (Nat.toDigits 10 n) 0 = some n := by
  unfold Nat.toDigits
  rw [parseDigits_toDigitsCore (n + 1) n [] (Nat.lt_succ_self n)]
  rfl

theorem toDigits_head (n : Nat) :
    ∃ d rest, d < 10 ∧ Nat.toDigits 10 n = Nat.digitChar d :: rest :=
  toDigitsCore_head (n + 1) n [] (Nat.succ_pos n)

theorem digitChar_not_sign {d : Nat} (h : d < 10) :
    Nat.digitChar d ≠ '-' ∧ Nat.digitChar d ≠ '+' := by
  interval_cases d <;> decide

/-- The function `Atoi` reads the decimal representation of an integer in range back to
that integer. -/
theorem Atoi_decimal (intSize : Nat) (n : Int)
    (hlo : -(2 : Int) ^ (intSize - 1) ≤ n) (hhi : n < (2 : Int) ^ (intSize - 1)) :
    Atoi intSize (decimal n) = some n := by
  by_cases hneg : n < 0
  · obtain ⟨d, rest, hd, hrest⟩ := toDigits_head n.natAbs
    have hp := parseDigits_toDigits n.natAbs
    have hv : -((n.natAbs : Nat) : Int) = n := by omega
    simp only [decimal, hneg, if_true, Atoi, List.head?_cons, List.tail_cons, true_or]
    rw [hp]
    simp only [hrest, decide_True, if_true, hv]
    simp [hlo, hhi]
  · obtain ⟨d, rest, hd, hrest⟩ := toDigits_head n.toNat
    have hp := parseDigits_toDigits n.toNat
    have hs := digitChar_not_sign hd
    have hv : ((n.toNat : Nat) : Int) = n := by omega
    simp only [decimal, hneg, if_false, Atoi]
    rw [hrest] at hp ⊢
    simp only [List.head?_cons, Option.some.injEq, hs.1, hs.2, or_self, if_false, hp,
      decide_False]
    simp [hv, hlo, hhi]

theorem parseDigits_none_of_not_all : ∀ (ds : Str) (acc : Nat),
    ds.all (fun c => decide (48 ≤ c.toNat ∧ c.toNat ≤ 57)) = false →
    parseDigits ds acc = none := by
  intro ds
  induction ds with
  | nil => intro acc h; simp at h
  | cons c cs ih =>
    intro acc h
    unfold parseDigits
    by_cases hc : 48 ≤ c.toNat ∧ c.toNat ≤ 57
    · rw [if_pos hc]
      apply ih
      simpa [List.all_cons, hc] using h
    · rw [if_neg hc]

/-- The function `Atoi` reports an error on every text that is not a base-10 integer. -/
theorem Atoi_not_decimal (intSize : Nat) (t : Str) (h : isDecimalInteger t = false) :
    Atoi intSize t = none := by
  unfold isDecimalInteger at h
  unfold Atoi
  simp only []
  generalize (if t.head? = some '-' ∨ t.head? = some '+' then t.tail else t) = ds at h ⊢
  by_cases hds : ds = []
  · simp [hds]
  · rw [if_neg hds]
    have hall : ds.all (fun c => decide (48 ≤ c.toNat ∧ c.toNat ≤ 57)) = false := by
      cases ds with
      | nil => exact absurd rfl hds
      | cons c cs => simpa using h
    rw [parseDigits_none_of_not_all ds 0 hall]

/-! ## The claims about `Map` on a struct -/

/-- A field that `Map` reaches in its second loop, the tags being valid and
the environment well formed: the turn of the field decides its final value
or the result of the call. -/
theorem Map_reach (e : EnvToStruct) (environ : List Str) (intSize : Nat)
    (fields : List StructField) (i : Nat) (f : StructField)
    (htags : ∀ g ∈ fields, (tagParser g.tag).2 = none)
    (henv : ∀ entry ∈ environ, '=' ∈ entry)
    (hi : fields[i]? = some f)
    (hbefore : ∀ j g, j < i → fields[j]? = some g →
      ∃ g2, fieldStep intSize g ((metaHolderOf e environ fields).getD j {}) = .next g2) :
    (∀ f2, fieldStep intSize f ((metaHolderOf e environ fields).getD i {}) = .next f2 →
      ∃ out, (e.Map environ intSize (.pointer fields)).target = .pointer out ∧
        out[i]? = some f2) ∧
    (∀ r, fieldStep intSize f ((metaHolderOf e environ fields).getD i {}) = .stop r →
      (e.Map environ intSize (.pointer fields)).result = r ∧
      ∃ out, (e.Map environ intSize (.pointer fields)).target = .pointer out ∧
        out[i]? = some f) := by
  have hb : ∀ j g, j < i → fields[j]? = some g →
      ∃ g2, fieldStep intSize g ((metaHolderOf e environ fields).getD (0 + j) {}) = .next g2 := by
    intro j g hj hg
    rw [Nat.zero_add]
    exact hbefore j g hj hg
  have h := assignLoop_reach intSize (metaHolderOf e environ fields) fields 0 i f hi hb
  rw [Nat.zero_add] at h
  rw [Map_pointer_eq e environ intSize fields htags henv]
  constructor
  · intro f2 hstep
    exact ⟨_, rfl, h.1 f2 hstep⟩
  · intro r hstep
    exact ⟨(h.2 r hstep).1, _, rfl, (h.2 r hstep).2⟩

/-- The table has no binding for a key that is the name of no entry. -/
theorem lookUpTable_get_none (environ : List Str) (table : Table) (key : Str)
    (htable : lookUpTable environ [] = some table)
    (hno : ∀ entry ∈ environ, (splitFirstEq entry).1 ≠ key) :
    table.get key = none := by
  cases hg : table.get key with
  | none => rfl
  | some v =>
    rcases lookUpTable_get_sound environ [] table key v htable hg with h | ⟨x, hx, hx0, -⟩
    · simp [Table.get] at h
    · rw [Split_first] at hx0
      exact absurd hx0 (hno x hx)

/-- C3, as amended: when every tag of the record is valid and every entry of
the environment holds `=`, a settable `int` or `string` field with a mandatory
tag, an empty default and no entry of the environment named by its lookup key,
before which no field stops the second loop, makes `Map` return
`MandatoryValueMissing` with the name of that field. -/
theorem Map_mandatory_missing (e : EnvToStruct) (environ : List Str) (intSize : Nat)
    (fields : List StructField) (i : Nat) (f : StructField)
    (htags : ∀ g ∈ fields, (tagParser g.tag).2 = none)
    (henv : ∀ entry ∈ environ, '=' ∈ entry)
    (hi : fields[i]? = some f)
    (hset : CanSet f = true)
    (_hkind : (∃ n, f.value = .int n) ∨ (∃ t, f.value = .string t))
    (hmand : (tagParser f.tag).1.mandatory = true)
    (hdef : (tagParser f.tag).1.deftVal = [])
    (hno : ∀ entry ∈ environ,
      (splitFirstEq entry).1 ≠ e.appName ++ e.separator ++ (tagParser f.tag).1.name)
    (hbefore : ∀ j g, j < i → fields[j]? = some g →
      ∃ g2, fieldStep intSize g ((metaHolderOf e environ fields).getD j {}) = .next g2) :
    (e.Map environ intSize (.pointer fields)).result =
      .error (.envError (MandatoryValueMissing.Field f.name)) := by
  obtain ⟨table, htable⟩ := lookUpTable_total environ [] henv
  have hmeta := metaHolderOf_getD e environ fields table htags htable i f hi
  have hnone := lookUpTable_get_none environ table _ htable hno
  have hcc : crossCheck table (e.appName ++ e.separator) (tagMeta i f) = tagMeta i f := by
    unfold crossCheck
    have : (tagMeta i f).envName = (tagParser f.tag).1.name := rfl
    rw [this, hnone]
  have helect : (tagMeta i f).electValue = ([], some MandatoryValueMissing) := by
    simp [fieldMeta.electValue, tagMeta, hmand, hdef]
  have hne : MandatoryValueMissing ≠ OptionalValueMissing := by decide
  have hstep : fieldStep intSize f ((metaHolderOf e environ fields).getD i {}) =
      .stop (.error (.envError (MandatoryValueMissing.Field f.name))) := by
    rw [hmeta, hcc]
    unfold fieldStep
    simp only [hset, if_true, helect, hne, if_false]
  exact ((Map_reach e environ intSize fields i f htags henv hi hbefore).2 _ hstep).1

/-- C3, as amended, on the scenario record with an empty environment: the
error names the field `Port`. -/
theorem Map_mandatory_missing_witness :
    (NewEnvParser.Map [] 64 (.pointer (demoRecord 0 []))).result =
      .error (.envError (MandatoryValueMissing.Field "Port".toList)) :=
  Map_mandatory_missing NewEnvParser [] 64 (demoRecord 0 []) 0
    { name := "Port".toList, tag := "PORT;mandatory;".toList, exported := true, value := .int 0 }
    (by decide) (by decide) (by decide) (by decide) (Or.inl ⟨0, rfl⟩) (by decide) (by decide)
    (by decide) (by intro j g hj; omega)

/-- C3, as it is written, fails: in the record `Port int` tagged
`PORT;mandatory;` and `Host string` tagged `;optional`, with an empty
environment, `Port` is settable, has a valid mandatory tag, no default, no
value in the environment and no field before it, yet `Map` returns
`InvalidTag`, from the tag of the later field `Host`, and not
`MandatoryValueMissing` for `Port`. -/
theorem Map_mandatory_missing_counterexample :
    tagParser "PORT;mandatory;".toList =
      ({ name := "PORT".toList, mandatory := true, deftVal := [] }, none) ∧
    (NewEnvParser.Map [] 64 (.pointer
      [ { name := "Port".toList, tag := "PORT;mandatory;".toList, exported := true,
          value := .int 0 },
        { name := "Host".toList, tag := ";optional".toList, exported := true,
          value := .string [] } ])).result = .error (.envError InvalidTag) ∧
    InvalidTag ≠ MandatoryValueMissing.Field "Port".toList := by
  decide

/-- C9, as amended: when `Map` reaches a settable `int` field in its second
loop (valid tags, every entry of the environment holding `=`, no earlier field
stopping the loop) and elects the text `t` for it: if `t` is the decimal
representation of an integer `n` in the range of `int`, the field holds `n`
when the call ends; if `t` is not a base-10 integer, `Map` returns
`InvalidValue` with the name of the field and the field keeps its value.
The text `8080` is the representation of 8080 and `abc` is not a base-10
integer. -/
theorem Map_int_conversion (e : EnvToStruct) (environ : List Str) (intSize : Nat)
    (fields : List StructField) (i : Nat) (f : StructField) (old : Int) (t : Str)
    (htags : ∀ g ∈ fields, (tagParser g.tag).2 = none)
    (henv : ∀ entry ∈ environ, '=' ∈ entry)
    (hi : fields[i]? = some f)
    (hset : CanSet f = true)
    (hint : f.value = .int old)
    (hbefore : ∀ j g, j < i → fields[j]? = some g →
      ∃ g2, fieldStep intSize g ((metaHolderOf e environ fields).getD j {}) = .next g2)
    (hres : ((metaHolderOf e environ fields).getD i {}).electValue = (t, none)) :
    (∀ n : Int, -(2 : Int) ^ (intSize - 1) ≤ n → n < (2 : Int) ^ (intSize - 1) →
      t = decimal n →
      ∃ out, (e.Map environ intSize (.pointer fields)).target = .pointer out ∧
        out[i]? = some { f with value := .int n }) ∧
    (isDecimalInteger t = false →
      (e.Map environ intSize (.pointer fields)).result =
        .error (.envError (InvalidValue.Field f.name)) ∧
      ∃ out, (e.Map environ intSize (.pointer fields)).target = .pointer out ∧
        out[i]? = some f) ∧
    decimal 8080 = "8080".toList ∧ isDecimalInteger "abc".toList = false := by
  have hreach := Map_reach e environ intSize fields i f htags henv hi hbefore
  refine ⟨?_, ?_, by decide, by decide⟩
  · intro n hlo hhi ht
    apply hreach.1
    unfold fieldStep
    simp only [hset, if_true, hres, hint, ht, Atoi_decimal intSize n hlo hhi]
  · intro hbad
    apply hreach.2
    unfold fieldStep
    simp only [hset, if_true, hres, hint, Atoi_not_decimal intSize t hbad]

/-- C9, as amended, on a record whose second field is an `int` with the text
`8080` in the environment. -/
theorem Map_int_conversion_witness :
    ∃ out, (NewEnvParser.Map ["PORT=8080".toList] 64 (.pointer
        [ { name := "Host".toList, tag := "HOST;optional;localhost".toList, exported := true,
            value := .string [] },
          { name := "Port".toList, tag := "PORT;mandatory;".toList, exported := true,
            value := .int 0 } ])).target = .pointer out ∧
      out[1]? = some
        { name := "Port".toList, tag := "PORT;mandatory;".toList, exported := true,
          value := .int 8080 } :=
  (Map_int_conversion NewEnvParser ["PORT=8080".toList] 64
    [ { name := "Host".toList, tag := "HOST;optional;localhost".toList, exported := true,
        value := .string [] },
      { name := "Port".toList, tag := "PORT;mandatory;".toList, exported := true,
        value := .int 0 } ] 1
    { name := "Port".toList, tag := "PORT;mandatory;".toList, exported := true, value := .int 0 }
    0 "8080".toList (by decide) (by decide) (by decide) (by decide) rfl
    (by
      intro j g hj hg
      have hj0 : j = 0 := by omega
      subst hj0
      simp only [List.getElem?_cons_zero, Option.some.injEq] at hg
      subst hg
      exact ⟨{ name := "Host".toList, tag := "HOST;optional;localhost".toList, exported := true,
               value := .string "localhost".toList }, by decide⟩)
    (by decide)).1 8080 (by decide) (by decide) (by decide)

/-- C9, as it is written, fails: in the record `A int` tagged `A;mandatory`
and `B int` tagged `B;optional;8080`, with an empty environment, `B` is a
settable `int` field whose resolved text `8080` is the representation of
8080, yet `Map` stops at `A` with `MandatoryValueMissing` and `B` keeps the
value 0. -/
theorem Map_int_conversion_counterexample :
    decimal 8080 = "8080".toList ∧
    (tagParser "B;optional;8080".toList).1.deftVal = "8080".toList ∧
    NewEnvParser.Map [] 64 (.pointer
      [ { name := "A".toList, tag := "A;mandatory".toList, exported := true, value := .int 0 },
        { name := "B".toList, tag := "B;optional;8080".toList, exported := true,
          value := .int 0 } ]) =
      ⟨.error (.envError (MandatoryValueMissing.Field "A".toList)), .pointer
        [ { name := "A".toList, tag := "A;mandatory".toList, exported := true, value := .int 0 },
          { name := "B".toList, tag := "B;optional;8080".toList, exported := true,
            value := .int 0 } ]⟩ := by
  decide

/-! ## The value of the environment against the table of the code -/

/-- An entry that holds `=` is its name, the `=` and the text after it. -/
theorem entry_eq_name_value : ∀ (entry : Str), '=' ∈ entry →
    entry = (splitFirstEq entry).1 ++ '=' :: (splitFirstEq entry).2 := by
  intro entry
  induction entry with
  | nil => intro h; simp at h
  | cons c cs ih =>
    intro h
    by_cases hc : c = '='
    · subst hc
      simp [splitFirstEq]
    · have hm : '=' ∈ cs := by
        rcases List.mem_cons.mp h with h1 | h1
        · exact absurd h1.symm hc
        · exact h1
      have := ih hm
      simp only [splitFirstEq] at this ⊢
      simp only [List.takeWhile_cons, List.dropWhile_cons, hc, ne_eq, not_false_eq_true,
        decide_True, if_true, List.cons_append]
      rw [← this]

theorem eq_not_mem_name (entry : Str) : '=' ∉ (splitFirstEq entry).1 := by
  intro h
  have := List.mem_takeWhile_imp h
  simp at this

/-- The piece that the code stores for an entry is the text after the first
`=` cut at the next `=`. -/
theorem Split_second_piece (entry : Str) (h : '=' ∈ entry) :
    (Split '=' entry).getD 1 [] =
      (splitFirstEq entry).2.takeWhile (fun c => decide (c ≠ '=')) := by
  have hd := entry_eq_name_value entry h
  have hs : Split '=' entry =
      (splitFirstEq entry).1 :: Split '=' (splitFirstEq entry).2 := by
    calc Split '=' entry
        = Split '=' ((splitFirstEq entry).1 ++ '=' :: (splitFirstEq entry).2) :=
          congrArg (Split '=') hd
      _ = (splitFirstEq entry).1 :: Split '=' (splitFirstEq entry).2 :=
          Split_append_sep _ (eq_not_mem_name entry)
  rw [hs, List.getD_cons_succ, Split_first]

/-- On an environment whose entries all hold `=` the table of the code gives
every key the value of the environment cut at its first `=`. -/
theorem lookUpTable_get_cut : ∀ (environ : List Str) (table : Table),
    (∀ entry ∈ environ, '=' ∈ entry) →
    ∃ t, lookUpTable environ table = some t ∧
      ∀ k, t.get k = (match envValue environ k with
        | some v => some (v.takeWhile (fun c => decide (c ≠ '=')))
        | none => table.get k) := by
  intro environ
  induction environ with
  | nil => intro table _; exact ⟨table, rfl, fun k => rfl⟩
  | cons entry rest ih =>
    intro table h
    have hmem := h entry (List.mem_cons_self _ _)
    have h2 : ¬ (Split '=' entry).length < 2 := by
      have := Split_length_of_mem hmem
      omega
    have h0 : (Split '=' entry).getD 0 [] = (splitFirstEq entry).1 := Split_first '=' entry
    have h1 := Split_second_piece entry hmem
    obtain ⟨t, ht, hget⟩ := ih (((Split '=' entry).getD 0 [], (Split '=' entry).getD 1 []) :: table)
      (fun x hx => h x (List.mem_cons_of_mem _ hx))
    refine ⟨t, ?_, ?_⟩
    · rw [lookUpTable]
      simp only [h2, if_false]
      exact ht
    · intro k
      rw [hget k]
      simp only [envValue]
      cases envValue rest k with
      | some v => rfl
      | none =>
        simp only [Table.get, h0, h1]
        split <;> rfl

/-- The table of the code has the value of the environment for a key whose
value holds no `=`. -/
theorem lookUpTable_get_of_plain (environ : List Str) (key : Str)
    (henv : ∀ entry ∈ environ, '=' ∈ entry)
    (hplain : ∀ v, envValue environ key = some v → '=' ∉ v) :
    ∃ t, lookUpTable environ [] = some t ∧ t.get key = envValue environ key := by
  obtain ⟨t, ht, hget⟩ := lookUpTable_get_cut environ [] henv
  refine ⟨t, ht, ?_⟩
  rw [hget key]
  cases hv : envValue environ key with
  | none => rfl
  | some v =>
    have hnm := hplain v hv
    have : v.takeWhile (fun c => decide (c ≠ '=')) = v := by
      rw [List.takeWhile_eq_self_iff]
      intro x hx
      have : x ≠ '=' := fun hxe => hnm (hxe ▸ hx)
      simpa using this
    simp only [this]

/-- C2, as amended: in an environment whose entries all hold `=`, when the
lookup key `pfx + NAME` of a field has a value `v` that is not empty and holds
no `=`, then `envToHolder` returns and `electValue` gives `v` with no error,
whatever the default and the mandatory flag of the field are, and whatever the
other entries are. -/
theorem envToHolder_value_precedence (e : EnvToStruct) (environ : List Str) (pfx : Str)
    (metas : List fieldMeta) (i : Nat) (m : fieldMeta) (v : Str)
    (henv : ∀ entry ∈ environ, '=' ∈ entry)
    (hm : metas[i]? = some m)
    (hv : envValue environ (pfx ++ m.envName) = some v)
    (hne : v ≠ [])
    (hplain : '=' ∉ v) :
    ∃ metas2 m2, e.envToHolder environ pfx metas = some metas2 ∧ metas2[i]? = some m2 ∧
      m2.electValue = (v, none) ∧ m2.defVal = m.defVal ∧ m2.mandatory = m.mandatory := by
  obtain ⟨t, ht, hget⟩ := lookUpTable_get_of_plain environ (pfx ++ m.envName) henv
    (fun w hw => by rw [hv] at hw; injection hw with h1; rw [← h1]; exact hplain)
  have hg : t.get (pfx ++ m.envName) = some v := by rw [hget, hv]
  refine ⟨metas.map (crossCheck t pfx), crossCheck t pfx m, ?_, ?_, ?_, ?_, ?_⟩
  · simp [EnvToStruct.envToHolder, ht]
  · simp [List.getElem?_map, hm]
  · simp [crossCheck, hg, fieldMeta.electValue, hne]
  · simp [crossCheck, hg]
  · simp [crossCheck, hg]

/-- C2, as amended, for a mandatory field with the default `8080` and the
entry `demo_PORT=9090` beside an entry whose value holds `=`. -/
theorem envToHolder_value_precedence_witness :
    ∃ metas2 m2, NewEnvParser.envToHolder
        ["LS_COLORS=rs=0:di=01".toList, "demo_PORT=9090".toList] "demo_".toList
        [{ envName := "PORT".toList, mandatory := true, defVal := "8080".toList }] = some metas2 ∧
      metas2[0]? = some m2 ∧ m2.electValue = ("9090".toList, none) ∧
      m2.defVal = "8080".toList ∧ m2.mandatory = true :=
  envToHolder_value_precedence NewEnvParser
    ["LS_COLORS=rs=0:di=01".toList, "demo_PORT=9090".toList] "demo_".toList
    [{ envName := "PORT".toList, mandatory := true, defVal := "8080".toList }] 0
    { envName := "PORT".toList, mandatory := true, defVal := "8080".toList } "9090".toList
    (by decide) (by decide) (by decide) (by decide) (by decide)

/-- C2, as it is written, fails for the empty value: with the entry `PORT=`
the key `PORT` is set to the empty text, yet for a field with the default
`8080` the value elected after `envToHolder` is `8080`, and for a mandatory
field without default it is the error `MandatoryValueMissing`. -/
theorem envToHolder_value_precedence_counterexample :
    envValue ["PORT=".toList] "PORT".toList = some [] ∧
    (NewEnvParser.envToHolder ["PORT=".toList] []
        [{ envName := "PORT".toList, defVal := "8080".toList }]).map
      (List.map fieldMeta.electValue) = some [("8080".toList, none)] ∧
    (NewEnvParser.envToHolder ["PORT=".toList] []
        [{ envName := "PORT".toList, mandatory := true }]).map
      (List.map fieldMeta.electValue) = some [([], some MandatoryValueMissing)] := by
  decide

/-! ## The final values after a call without error -/

/-- A turn of the second loop that goes on for a settable field: either the
election gave the sentinel `OptionalValueMissing` and the field is untouched,
or it gave a text, which an `int` field holds converted and a `string` field
as it is. -/
theorem fieldStep_next_cases (intSize : Nat) (f g : StructField) (m : fieldMeta)
    (hset : CanSet f = true) (h : fieldStep intSize f m = .next g) :
    (m.electValue.2 = some OptionalValueMissing ∧ g = f) ∨
    (m.electValue.2 = none ∧ g.name = f.name ∧ g.tag = f.tag ∧ g.exported = f.exported ∧
      (∀ old, f.value = .int old →
        ∃ n, Atoi intSize m.electValue.1 = some n ∧ g.value = .int n) ∧
      (∀ old, f.value = .string old → g.value = .string m.electValue.1)) := by
  unfold fieldStep at h
  simp only [hset, if_true] at h
  rcases hel : m.electValue with ⟨t, er⟩
  rw [hel] at h
  cases er with
  | some er =>
    simp only at h
    by_cases he : er = OptionalValueMissing
    · simp only [he, if_true, Step.next.injEq] at h
      exact Or.inl ⟨by rw [he], h.symm⟩
    · simp [he] at h
  | none =>
    right
    simp only at h
    rcases f with ⟨name, tag, exported, value⟩
    cases value with
    | int old =>
      simp only at h
      cases ha : Atoi intSize t with
      | none => simp [ha] at h
      | some n =>
        simp only [ha, Step.next.injEq] at h
        subst h
        refine ⟨rfl, rfl, rfl, rfl, ?_, ?_⟩
        · intro _ _; exact ⟨n, rfl, rfl⟩
        · intro _ hs; cases hs
    | string old =>
      simp only [Step.next.injEq] at h
      subst h
      refine ⟨rfl, rfl, rfl, rfl, ?_, ?_⟩
      · intro _ hs; cases hs
      · intro _ _; rfl
    | definedInt old =>
      simp only at h
      cases ha : Atoi intSize t <;> simp [ha] at h
    | definedString old => simp at h
    | nilPointer =>
      simp only [Step.next.injEq] at h
      subst h
      exact ⟨rfl, rfl, rfl, rfl, fun _ hs => (by cases hs), fun _ hs => (by cases hs)⟩
    | pointer =>
      simp only [Step.next.injEq] at h
      subst h
      exact ⟨rfl, rfl, rfl, rfl, fun _ hs => (by cases hs), fun _ hs => (by cases hs)⟩
    | other =>
      simp only [Step.next.injEq] at h
      subst h
      exact ⟨rfl, rfl, rfl, rfl, fun _ hs => (by cases hs), fun _ hs => (by cases hs)⟩

/-- What `electValue` gives on the metadata of a field, in terms of the
resolved text. -/
theorem electValue_crossCheck (environ : List Str) (table : Table) (pfx : Str) (i : Nat)
    (f : StructField)
    (hget : table.get (pfx ++ (tagParser f.tag).1.name) =
      envValue environ (pfx ++ (tagParser f.tag).1.name)) :
    (∀ t, resolvedText environ (pfx ++ (tagParser f.tag).1.name) (tagParser f.tag).1.deftVal =
        some t → (crossCheck table pfx (tagMeta i f)).electValue = (t, none)) ∧
    (resolvedText environ (pfx ++ (tagParser f.tag).1.name) (tagParser f.tag).1.deftVal = none →
      (crossCheck table pfx (tagMeta i f)).electValue.2 =
        some (if (tagParser f.tag).1.mandatory = true then MandatoryValueMissing
          else OptionalValueMissing)) := by
  have hname : (tagMeta i f).envName = (tagParser f.tag).1.name := rfl
  unfold crossCheck resolvedText
  rw [hname, hget]
  rcases hv : envValue environ (pfx ++ (tagParser f.tag).1.name) with _ | v
  · by_cases hd : (tagParser f.tag).1.deftVal = []
    · by_cases hm : (tagParser f.tag).1.mandatory = true <;>
        simp [fieldMeta.electValue, tagMeta, hd, hm]
    · simp [fieldMeta.electValue, tagMeta, hd]
  · cases v with
    | nil =>
      by_cases hd : (tagParser f.tag).1.deftVal = []
      · by_cases hm : (tagParser f.tag).1.mandatory = true <;>
          simp [fieldMeta.electValue, tagMeta, hd, hm]
      · simp [fieldMeta.electValue, tagMeta, hd]
    | cons c cs => simp [fieldMeta.electValue]

/-- With valid tags, a call of `Map` that returns `nil` has read an
environment whose entries all hold `=`. -/
theorem Map_nil_env (e : EnvToStruct) (environ : List Str) (intSize : Nat)
    (fields : List StructField) (htags : ∀ g ∈ fields, (tagParser g.tag).2 = none)
    (hok : (e.Map environ intSize (.pointer fields)).result = .nil) :
    ∀ entry ∈ environ, '=' ∈ entry := by
  by_contra hcon
  have hex : ∃ entry ∈ environ, '=' ∉ entry := by
    by_contra h2
    apply hcon
    intro entry hentry
    by_contra h3
    exact h2 ⟨entry, hentry, h3⟩
  have hnone : lookUpTable environ [] = none := by
    cases hl : lookUpTable environ [] with
    | none => rfl
    | some t =>
      exfalso
      obtain ⟨entry, hentry, hno⟩ := hex
      have hlt : (Split '=' entry).length < 2 := by
        rw [Split_of_not_mem hno]; simp
      have key : ∀ (env : List Str) (tb t2 : Table), entry ∈ env →
          lookUpTable env tb = some t2 → False := by
        intro env
        induction env with
        | nil => intro tb t2 hm; simp at hm
        | cons x xs ih =>
          intro tb t2 hm hl2
          rw [lookUpTable] at hl2
          by_cases hx : (Split '=' x).length < 2
          · simp [hx] at hl2
          · simp only [hx, if_false] at hl2
            rcases List.mem_cons.mp hm with h1 | h1
            · subst h1
              exact hx hlt
            · exact ih _ _ h1 hl2
      exact key environ [] t hentry hl
  obtain ⟨ms, hms, -, -⟩ := tagLoop_ok fields 0 htags
  simp only [EnvToStruct.Map, Target.IsNil, Target.isPtr, hms, EnvToStruct.envToHolder,
    hnone] at hok
  cases hok

/-- C4, as amended: on a record whose tags are all valid, whenever `Map`
returns no error, every settable field whose lookup key has no value with `=`
in it ends as follows, its resolved text being the value of the environment
for its lookup key when there is one and it is not empty, else its default
when that is not empty: with a resolved text, an `int` field holds the integer
that `Atoi` reads from it and a `string` field holds the text itself; with
none, the tag is optional and the field is as before the call.  The other
entries of the environment may hold any number of `=`.  On the scenario
record with `PORT=9090` the result is `Port` 9090 and `Host` `localhost`, with
no error, also beside an entry whose value holds `=`. -/
theorem Map_final_values (e : EnvToStruct) (environ : List Str) (intSize : Nat)
    (fields : List StructField) :
    ((∀ g ∈ fields, (tagParser g.tag).2 = none) →
      (e.Map environ intSize (.pointer fields)).result = .nil →
      ∃ out, (e.Map environ intSize (.pointer fields)).target = .pointer out ∧
        out.length = fields.length ∧
        ∀ (i : Nat) (f : StructField), fields[i]? = some f → CanSet f = true →
          (∀ v, envValue environ (e.appName ++ e.separator ++ (tagParser f.tag).1.name) =
            some v → '=' ∉ v) →
          ∃ g, out[i]? = some g ∧ g.name = f.name ∧ g.tag = f.tag ∧ g.exported = f.exported ∧
            (∀ t, resolvedText environ (e.appName ++ e.separator ++ (tagParser f.tag).1.name)
                (tagParser f.tag).1.deftVal = some t →
              (∀ old, f.value = .int old →
                ∃ n, Atoi intSize t = some n ∧ g.value = .int n) ∧
              (∀ old, f.value = .string old → g.value = .string t)) ∧
            (resolvedText environ (e.appName ++ e.separator ++ (tagParser f.tag).1.name)
                (tagParser f.tag).1.deftVal = none →
              (tagParser f.tag).1.mandatory = false ∧ g = f)) ∧
    NewEnvParser.Map ["PORT=9090".toList] 64 (.pointer (demoRecord 0 [])) =
      ⟨.nil, .pointer (demoRecord 9090 "localhost".toList)⟩ ∧
    NewEnvParser.Map ["LS_COLORS=rs=0:di=01".toList, "PORT=9090".toList] 64
        (.pointer (demoRecord 0 [])) =
      ⟨.nil, .pointer (demoRecord 9090 "localhost".toList)⟩ := by
  refine ⟨?_, by decide, by decide⟩
  intro htags hok
  have henv2 : ∀ entry ∈ environ, '=' ∈ entry := Map_nil_env e environ intSize fields htags hok
  rw [Map_pointer_eq e environ intSize fields htags henv2] at hok ⊢
  simp only at hok
  refine ⟨_, rfl, assignLoop_length _ _ _ _, ?_⟩
  intro i f hi hset hplain
  obtain ⟨table, htable, hget⟩ := lookUpTable_get_of_plain environ
    (e.appName ++ e.separator ++ (tagParser f.tag).1.name) henv2 hplain
  obtain ⟨g, hstep, hout⟩ :=
    assignLoop_nil intSize (metaHolderOf e environ fields) fields 0 hok i f hi
  rw [Nat.zero_add, metaHolderOf_getD e environ fields table htags htable i f hi] at hstep
  have hel := electValue_crossCheck environ table (e.appName ++ e.separator) i f hget
  have hne : MandatoryValueMissing ≠ OptionalValueMissing := by decide
  rcases fieldStep_next_cases intSize f g _ hset hstep with ⟨hopt, hgf⟩ | ⟨hnone, h1, h2, h3, h4, h5⟩
  · subst hgf
    refine ⟨g, hout, rfl, rfl, rfl, ?_, ?_⟩
    · intro t ht
      rw [hel.1 t ht] at hopt
      cases hopt
    · intro hnil
      refine ⟨?_, rfl⟩
      have := hel.2 hnil
      rw [hopt] at this
      by_cases hm : (tagParser g.tag).1.mandatory = true
      · simp only [hm, if_true, Option.some.injEq] at this
        exact absurd this.symm hne
      · simpa using hm
  · refine ⟨g, hout, h1, h2, h3, ?_, ?_⟩
    · intro t ht
      have := hel.1 t ht
      rw [this] at h4 h5
      exact ⟨h4, h5⟩
    · intro hnil
      have := hel.2 hnil
      rw [hnone] at this
      cases this

/-- C4, as amended, on the scenario record with `PORT=9090` beside an entry
whose value holds `=`: the field `Port` ends as 9090. -/
theorem Map_final_values_witness :
    ∃ g : StructField, g.name = "Port".toList ∧
      (∀ old, FieldValue.int 0 = .int old →
        ∃ n, Atoi 64 "9090".toList = some n ∧ g.value = .int n) :=
  match (Map_final_values NewEnvParser ["LS_COLORS=rs=0:di=01".toList, "PORT=9090".toList] 64
    (demoRecord 0 [])).1 (by decide) (by decide) with
  | ⟨_, _, _, h⟩ =>
    match h 0
      { name := "Port".toList, tag := "PORT;mandatory;".toList, exported := true,
        value := .int 0 } (by decide) (by decide)
      (by
        intro v hv
        have h1 : envValue ["LS_COLORS=rs=0:di=01".toList, "PORT=9090".toList]
            "PORT".toList = some "9090".toList := by decide
        have h2 : v = "9090".toList := by
          have h3 : (NewEnvParser.appName ++ NewEnvParser.separator ++
              (tagParser "PORT;mandatory;".toList).1.name) = "PORT".toList := by decide
          rw [h3, h1] at hv
          injection hv with h4
          exact h4.symm
        rw [h2]
        decide) with
    | ⟨g, _, hname, _, _, htext, _⟩ =>
      ⟨g, hname, (htext "9090".toList (by decide)).1⟩

/-- C4, as it is written, fails for an empty value of the environment: on the
field `Host string` tagged `HOST;optional;localhost` with the entry `HOST=`,
the resolved text stated is the value of the environment, the empty text,
yet `Map` returns no error and `Host` holds the default `localhost`. -/
theorem Map_final_values_counterexample :
    statedResolvedText ["HOST=".toList] "HOST".toList "localhost".toList = some [] ∧
    NewEnvParser.Map ["HOST=".toList] 64 (.pointer
      [ { name := "Host".toList, tag := "HOST;optional;localhost".toList, exported := true,
          value := .string "old".toList } ]) =
      ⟨.nil, .pointer
        [ { name := "Host".toList, tag := "HOST;optional;localhost".toList, exported := true,
            value := .string "localhost".toList } ]⟩ := by
  decide

/-! ## Further facts about tags and the loops -/

/-- The only error of `tagParser` is `InvalidTag`. -/
theorem tagParser_error (t : Str) :
    (tagParser t).2 = none ∨ (tagParser t).2 = some InvalidTag := by
  unfold tagParser tagParserDefault
  simp only []
  split_ifs <;> simp

/-- The first loop of `Map` stops with `InvalidTag` as soon as a tag is not
valid. -/
theorem tagLoop_error : ∀ (fields : List StructField) (k : Nat),
    (∃ f ∈ fields, (tagParser f.tag).2 ≠ none) → tagLoop k fields = .error InvalidTag := by
  intro fields
  induction fields with
  | nil => intro k h; obtain ⟨f, hf, -⟩ := h; simp at hf
  | cons g rest ih =>
    intro k h
    rw [tagLoop]
    rcases hp : tagParser g.tag with ⟨info, er⟩
    cases er with
    | some er =>
      have := tagParser_error g.tag
      rw [hp] at this
      rcases this with h1 | h1
      · cases h1
      · simp only [Option.some.injEq] at h1
        simp only [h1]
    | none =>
      have hrest : ∃ f ∈ rest, (tagParser f.tag).2 ≠ none := by
        obtain ⟨f, hf, hne⟩ := h
        rcases List.mem_cons.mp hf with h1 | h1
        · subst h1
          rw [hp] at hne
          exact absurd rfl hne
        · exact ⟨f, h1, hne⟩
      simp only [ih (k + 1) hrest]

/-- A record with a tag that is not valid: `Map` returns `InvalidTag` as
`tagParser` made it and the record is as before the call. -/
theorem Map_of_invalid_tag (e : EnvToStruct) (environ : List Str) (intSize : Nat)
    (fields : List StructField) (h : ∃ f ∈ fields, (tagParser f.tag).2 ≠ none) :
    e.Map environ intSize (.pointer fields) =
      ⟨.error (.envError InvalidTag), .pointer fields⟩ := by
  simp only [EnvToStruct.Map, Target.IsNil, Target.isPtr, tagLoop_error fields 0 h]
  rfl

/-- A field whose turn, if it goes on, leaves the field as it is, is as before
when the second loop ends, however the loop ends. -/
theorem assignLoop_unchanged (intSize : Nat) (mh : List fieldMeta) :
    ∀ (fields : List StructField) (k i : Nat) (f : StructField),
      fields[i]? = some f →
      (∀ g2, fieldStep intSize f (mh.getD (k + i) {}) = .next g2 → g2 = f) →
      (assignLoop intSize mh k fields).1[i]? = some f := by
  intro fields
  induction fields with
  | nil => intro k i f h; simp at h
  | cons g rest ih =>
    intro k i f hi hsame
    cases hstep : fieldStep intSize g (mh.getD k {}) with
    | stop r =>
      rw [assignLoop_cons_stop rest hstep]
      exact hi
    | next g2 =>
      rw [assignLoop_cons_next rest hstep]
      cases i with
      | zero =>
        simp only [List.getElem?_cons_zero, Option.some.injEq] at hi
        subst hi
        have := hsame g2 (by simpa using hstep)
        simp [this]
      | succ i =>
        simp only [List.getElem?_cons_succ] at hi ⊢
        apply ih (k + 1) i f hi
        intro x hx
        have e : k + 1 + i = k + (i + 1) := by omega
        rw [e] at hx
        exact hsame x hx

/-- How the second loop ends: with `nil`, or with the result at which the
turn of one of the fields stopped. -/
theorem assignLoop_result (intSize : Nat) (mh : List fieldMeta) :
    ∀ (fields : List StructField) (k : Nat),
      (assignLoop intSize mh k fields).2 = .nil ∨
      ∃ i f, fields[i]? = some f ∧
        fieldStep intSize f (mh.getD (k + i) {}) = .stop (assignLoop intSize mh k fields).2 := by
  intro fields
  induction fields with
  | nil => intro k; exact Or.inl rfl
  | cons g rest ih =>
    intro k
    cases hstep : fieldStep intSize g (mh.getD k {}) with
    | stop r =>
      rw [assignLoop_cons_stop rest hstep]
      exact Or.inr ⟨0, g, by simp, by simpa using hstep⟩
    | next g2 =>
      rw [assignLoop_cons_next rest hstep]
      rcases ih (k + 1) with h | ⟨i, f, hi, hs⟩
      · exact Or.inl h
      · refine Or.inr ⟨i + 1, f, by simpa using hi, ?_⟩
        have e : k + 1 + i = k + (i + 1) := by omega
        rw [e] at hs
        exact hs

/-- The results with which a turn of the second loop can stop the call. -/
theorem fieldStep_stop_cases (intSize : Nat) (f : StructField) (m : fieldMeta) (r : Result)
    (h : fieldStep intSize f m = .stop r) :
    r = .panic ∨ r = .error (.envError (MandatoryValueMissing.Field f.name)) ∨
      r = .error (.envError (InvalidValue.Field f.name)) := by
  unfold fieldStep at h
  by_cases hset : CanSet f = true
  · simp only [hset, if_true] at h
    have hel : m.electValue = (m.valueHolder, none) ∨ m.electValue = (m.defVal, none) ∨
        m.electValue = ([], some MandatoryValueMissing) ∨
        m.electValue = ([], some OptionalValueMissing) := by
      unfold fieldMeta.electValue
      split_ifs <;> simp
    have hne : MandatoryValueMissing ≠ OptionalValueMissing := by decide
    have htext : ∀ t, (match f.value with
        | .int _ =>
          match Atoi intSize t with
          | none => Step.stop (.error (.envError (InvalidValue.Field f.name)))
          | some intVal => Step.next { f with value := .int intVal }
        | .definedInt _ =>
          match Atoi intSize t with
          | none => Step.stop (.error (.envError (InvalidValue.Field f.name)))
          | some _ => Step.stop .panic
        | .string _ => Step.next { f with value := .string t }
        | .definedString _ => Step.stop .panic
        | _ => Step.next f) = Step.stop r →
        r = .panic ∨ r = .error (.envError (MandatoryValueMissing.Field f.name)) ∨
          r = .error (.envError (InvalidValue.Field f.name)) := by
      intro t ht
      cases hv : f.value <;> rw [hv] at ht <;> simp only at ht
      · cases ha : Atoi intSize t <;> rw [ha] at ht <;> simp only [Step.stop.injEq] at ht
        · exact Or.inr (Or.inr ht.symm)
        · cases ht
      · cases ht
      · cases ha : Atoi intSize t <;> rw [ha] at ht <;> simp only [Step.stop.injEq] at ht
        · exact Or.inr (Or.inr ht.symm)
        · exact Or.inl ht.symm
      · simp only [Step.stop.injEq] at ht
        exact Or.inl ht.symm
      · cases ht
      · cases ht
      · cases ht
    rcases hel with h1 | h1 | h1 | h1 <;> rw [h1] at h <;> simp only at h
    · exact htext _ h
    · exact htext _ h
    · simp only [hne, if_false, Step.stop.injEq] at h
      exact Or.inr (Or.inl h.symm)
    · simp at h
  · simp [hset] at h

/-- A field whose turn, if it goes on, leaves the field as it is, is as before
when `Map` ends, however it ends. -/
theorem Map_field_unchanged (e : EnvToStruct) (environ : List Str) (intSize : Nat)
    (fields : List StructField) (i : Nat) (f : StructField)
    (hi : fields[i]? = some f)
    (hsame : ∀ g2,
      fieldStep intSize f ((metaHolderOf e environ fields).getD i {}) = .next g2 → g2 = f) :
    ∃ out, (e.Map environ intSize (.pointer fields)).target = .pointer out ∧
      out[i]? = some f := by
  simp only [EnvToStruct.Map, Target.IsNil, Target.isPtr]
  simp only [metaHolderOf] at hsame
  cases htl : tagLoop 0 fields with
  | error er => exact ⟨fields, rfl, hi⟩
  | ok ms =>
    rw [htl] at hsame
    simp only at hsame ⊢
    cases hen : e.envToHolder environ (e.appName ++ e.separator) ms with
    | none => exact ⟨fields, rfl, hi⟩
    | some mh =>
      rw [hen] at hsame
      simp only [Option.getD_some] at hsame
      refine ⟨_, rfl, ?_⟩
      apply assignLoop_unchanged intSize mh fields 0 i f hi
      rw [Nat.zero_add]
      exact hsame

/-- Every result of `Map`: `nil`, a panic, one of the two texts made by
`errors.New`, `InvalidTag` without a field name, or `MandatoryValueMissing`
or `InvalidValue` with the name of a field of the record. -/
theorem Map_result_cases (e : EnvToStruct) (environ : List Str) (intSize : Nat)
    (source : Target) :
    (e.Map environ intSize source).result = .nil ∨
    (e.Map environ intSize source).result = .panic ∨
    (∃ t, (e.Map environ intSize source).result = .error (.errorString t)) ∨
    (e.Map environ intSize source).result = .error (.envError InvalidTag) ∨
    (∃ name, (e.Map environ intSize source).result =
      .error (.envError (MandatoryValueMissing.Field name))) ∨
    (∃ name, (e.Map environ intSize source).result =
      .error (.envError (InvalidValue.Field name))) := by
  cases source with
  | untypedNil => exact Or.inr (Or.inl rfl)
  | nilPointer => exact Or.inr (Or.inr (Or.inl ⟨_, rfl⟩))
  | structValue fields => exact Or.inr (Or.inl rfl)
  | nilable isNil =>
    cases isNil
    · exact Or.inr (Or.inr (Or.inl ⟨_, rfl⟩))
    · exact Or.inr (Or.inr (Or.inl ⟨_, rfl⟩))
  | pointerToOther => exact Or.inr (Or.inl rfl)
  | scalar => exact Or.inr (Or.inl rfl)
  | pointer fields =>
    simp only [EnvToStruct.Map, Target.IsNil, Target.isPtr]
    cases htl : tagLoop 0 fields with
    | error er =>
      have hinv : ∃ f ∈ fields, (tagParser f.tag).2 ≠ none := by
        by_contra hcon
        have hall : ∀ g ∈ fields, (tagParser g.tag).2 = none := by
          intro g hg
          by_contra hg2
          exact hcon ⟨g, hg, hg2⟩
        obtain ⟨ms, hms, -, -⟩ := tagLoop_ok fields 0 hall
        rw [hms] at htl
        cases htl
      rw [tagLoop_error fields 0 hinv] at htl
      injection htl with h1
      subst h1
      exact Or.inr (Or.inr (Or.inr (Or.inl rfl)))
    | ok ms =>
      simp only
      cases hen : e.envToHolder environ (e.appName ++ e.separator) ms with
      | none => exact Or.inr (Or.inl rfl)
      | some mh =>
        simp only
        rcases assignLoop_result intSize mh fields 0 with h | ⟨i, f, -, hs⟩
        · exact Or.inl h
        · rcases fieldStep_stop_cases intSize f _ _ hs with h1 | h1 | h1
          · exact Or.inr (Or.inl h1)
          · exact Or.inr (Or.inr (Or.inr (Or.inr (Or.inl ⟨f.name, h1⟩))))
          · exact Or.inr (Or.inr (Or.inr (Or.inr (Or.inr ⟨f.name, h1⟩))))

/-! ## The claims about errors and skipped fields -/

/-- C11: on every record with a tag that is not valid, `Map` returns the
error `InvalidTag` with an empty field name, as `tagParser` made it: its
message is `invalid tag; field : ` and names no field, while the other two
errors of `Map` are given the name of the field with `Field`. -/
theorem Map_invalid_tag_names_no_field (e : EnvToStruct) (environ : List Str)
    (intSize : Nat) (fields : List StructField)
    (h : ∃ f ∈ fields, (tagParser f.tag).2 ≠ none) :
    (e.Map environ intSize (.pointer fields)).result = .error (.envError InvalidTag) ∧
    InvalidTag.field = [] ∧
    InvalidTag.Error = "invalid tag; field : ".toList := by
  rw [Map_of_invalid_tag e environ intSize fields h]
  exact ⟨rfl, rfl, by decide⟩

/-- C11 on the record with the one field `Host string` tagged `;optional`. -/
theorem Map_invalid_tag_names_no_field_witness :
    (NewEnvParser.Map [] 64 (.pointer
      [ { name := "Host".toList, tag := ";optional".toList, exported := true,
          value := .string [] } ])).result = .error (.envError InvalidTag) ∧
    InvalidTag.field = [] ∧
    InvalidTag.Error = "invalid tag; field : ".toList :=
  Map_invalid_tag_names_no_field NewEnvParser [] 64
    [ { name := "Host".toList, tag := ";optional".toList, exported := true,
        value := .string [] } ]
    ⟨{ name := "Host".toList, tag := ";optional".toList, exported := true,
       value := .string [] }, by decide, by decide⟩

/-- C12: `Map` never returns an error with the message of
`OptionalValueMissing`, whatever its argument and the environment; a turn of
the second loop whose election gives that sentinel leaves the field as it is
and the loop goes on with the fields that follow; a field for which `Map`
holds metadata that elects the sentinel is as before when `Map` ends; and
after such a field that `Map` reaches, the next field has its turn, which
decides its final value or the result of the call.  On `Host` optional
without default followed by `Port` with `PORT=9090`, `Host` is as before and
`Port` ends as 9090. -/
theorem Map_never_returns_optional_missing (e : EnvToStruct) (environ : List Str)
    (intSize : Nat) :
    (∀ (source : Target) (er : EnvError),
      (e.Map environ intSize source).result = .error (.envError er) →
      er.msg ≠ OptionalValueMissing.msg) ∧
    (∀ (f : StructField) (m : fieldMeta), m.electValue.2 = some OptionalValueMissing →
      fieldStep intSize f m = .next f) ∧
    (∀ (fields : List StructField) (i : Nat) (f : StructField), fields[i]? = some f →
      ((metaHolderOf e environ fields).getD i {}).electValue.2 = some OptionalValueMissing →
      ∃ out, (e.Map environ intSize (.pointer fields)).target = .pointer out ∧
        out[i]? = some f) ∧
    (∀ (mh : List fieldMeta) (k : Nat) (f : StructField) (rest : List StructField),
      (mh.getD k {}).electValue.2 = some OptionalValueMissing →
      assignLoop intSize mh k (f :: rest) =
        (f :: (assignLoop intSize mh (k + 1) rest).1,
         (assignLoop intSize mh (k + 1) rest).2)) ∧
    (∀ (fields : List StructField) (i : Nat) (f g : StructField),
      (∀ x ∈ fields, (tagParser x.tag).2 = none) → (∀ entry ∈ environ, '=' ∈ entry) →
      fields[i]? = some f → fields[i + 1]? = some g →
      (∀ j x, j < i → fields[j]? = some x →
        ∃ x2, fieldStep intSize x ((metaHolderOf e environ fields).getD j {}) = .next x2) →
      ((metaHolderOf e environ fields).getD i {}).electValue.2 = some OptionalValueMissing →
      (∀ g2, fieldStep intSize g ((metaHolderOf e environ fields).getD (i + 1) {}) = .next g2 →
        ∃ out, (e.Map environ intSize (.pointer fields)).target = .pointer out ∧
          out[i]? = some f ∧ out[i + 1]? = some g2) ∧
      (∀ r, fieldStep intSize g ((metaHolderOf e environ fields).getD (i + 1) {}) = .stop r →
        (e.Map environ intSize (.pointer fields)).result = r ∧
        ∃ out, (e.Map environ intSize (.pointer fields)).target = .pointer out ∧
          out[i]? = some f ∧ out[i + 1]? = some g)) ∧
    NewEnvParser.Map ["PORT=9090".toList] 64 (.pointer
      [ { name := "Host".toList, tag := "HOST;optional".toList, exported := true,
          value := .string "old".toList },
        { name := "Port".toList, tag := "PORT;mandatory;".toList, exported := true,
          value := .int 0 } ]) =
      ⟨.nil, .pointer
        [ { name := "Host".toList, tag := "HOST;optional".toList, exported := true,
            value := .string "old".toList },
          { name := "Port".toList, tag := "PORT;mandatory;".toList, exported := true,
            value := .int 9090 } ]⟩ := by
  have hstep : ∀ (f : StructField) (m : fieldMeta),
      m.electValue.2 = some OptionalValueMissing → fieldStep intSize f m = .next f := by
    intro f m hm
    unfold fieldStep
    rcases hel : m.electValue with ⟨t, er⟩
    rw [hel] at hm
    simp only at hm
    subst hm
    simp
  have hkeep : ∀ (fields : List StructField) (i : Nat) (f : StructField), fields[i]? = some f →
      ((metaHolderOf e environ fields).getD i {}).electValue.2 = some OptionalValueMissing →
      ∃ out, (e.Map environ intSize (.pointer fields)).target = .pointer out ∧
        out[i]? = some f := by
    intro fields i f hi hopt
    apply Map_field_unchanged e environ intSize fields i f hi
    intro g2 hg2
    rw [hstep f _ hopt] at hg2
    injection hg2 with h1
    exact h1.symm
  refine ⟨?_, hstep, hkeep, ?_, ?_, by decide⟩
  · intro source er hres
    rcases Map_result_cases e environ intSize source with h | h | ⟨t, h⟩ | h | ⟨n, h⟩ | ⟨n, h⟩ <;>
      rw [h] at hres
    · cases hres
    · cases hres
    · cases hres
    · injection hres with h1
      injection h1 with h2
      subst h2
      decide
    · injection hres with h1
      injection h1 with h2
      subst h2
      simp only [EnvError.Field]
      decide
    · injection hres with h1
      injection h1 with h2
      subst h2
      simp only [EnvError.Field]
      decide
  · intro mh k f rest hopt
    exact assignLoop_cons_next rest (hstep f _ hopt)
  · intro fields i f g htags henv hi hi1 hbefore hopt
    have hb : ∀ j x, j < i + 1 → fields[j]? = some x →
        ∃ x2, fieldStep intSize x ((metaHolderOf e environ fields).getD j {}) = .next x2 := by
      intro j x hj hx
      by_cases hji : j < i
      · exact hbefore j x hji hx
      · have hje : j = i := by omega
        subst hje
        rw [hi] at hx
        injection hx with h1
        subst h1
        exact ⟨f, hstep f _ hopt⟩
    have hreach := Map_reach e environ intSize fields (i + 1) g htags henv hi1 hb
    obtain ⟨out0, ht0, ho0⟩ := hkeep fields i f hi hopt
    constructor
    · intro g2 hg2
      obtain ⟨out, ht, ho⟩ := hreach.1 g2 hg2
      rw [ht0] at ht
      injection ht with h1
      subst h1
      exact ⟨out0, ht0, ho0, ho⟩
    · intro r hr
      obtain ⟨hres, out, ht, ho⟩ := hreach.2 r hr
      rw [ht0] at ht
      injection ht with h1
      subst h1
      exact ⟨hres, out0, ht0, ho0, ho⟩

/-- C12 on an optional field `Host` without default and without a value in
the environment, followed by `Port` with `PORT=9090`: `Host` is as before and
`Port`, the next field, ends as 9090. -/
theorem Map_never_returns_optional_missing_witness :
    ∃ out, (NewEnvParser.Map ["PORT=9090".toList] 64 (.pointer
        [ { name := "Host".toList, tag := "HOST;optional".toList, exported := true,
            value := .string "old".toList },
          { name := "Port".toList, tag := "PORT;mandatory;".toList, exported := true,
            value := .int 0 } ])).target = .pointer out ∧
      out[0]? = some { name := "Host".toList, tag := "HOST;optional".toList,
                       exported := true, value := .string "old".toList } ∧
      out[0 + 1]? = some { name := "Port".toList, tag := "PORT;mandatory;".toList,
                           exported := true, value := .int 9090 } :=
  ((Map_never_returns_optional_missing NewEnvParser ["PORT=9090".toList] 64).2.2.2.2.1
    [ { name := "Host".toList, tag := "HOST;optional".toList, exported := true,
        value := .string "old".toList },
      { name := "Port".toList, tag := "PORT;mandatory;".toList, exported := true,
        value := .int 0 } ] 0
    { name := "Host".toList, tag := "HOST;optional".toList, exported := true,
      value := .string "old".toList }
    { name := "Port".toList, tag := "PORT;mandatory;".toList, exported := true, value := .int 0 }
    (by decide) (by decide) (by decide) (by decide) (by intro j x hj; omega) (by decide)).1
    { name := "Port".toList, tag := "PORT;mandatory;".toList, exported := true,
      value := .int 9090 } (by decide)

/-- A tag `n;mandatory;X` parses to the trimmed name, the flag true and the
default `X`. -/
theorem tagParser_mandatory_tag {n X : Str} (hn : ';' ∉ n) (hname : TrimSpace n ≠ [])
    (hX : ';' ∉ X) :
    tagParser (n ++ ';' :: (MANDATORY ++ ';' :: X)) =
      ({ name := TrimSpace n, mandatory := true, deftVal := X }, none) := by
  have hlen : (n ++ ';' :: (MANDATORY ++ ';' :: X)).length ≠ 0 := by simp
  simp [tagParser, tagParserDefault, Split_three hn semicolon_not_mem_MANDATORY hX, hname,
    MANDATORY_ne_OPTIONAL]

/-- After the turn at which the second loop stops, the fields are as before:
that of the turn and all those that follow. -/
theorem assignLoop_after_stop (intSize : Nat) (mh : List fieldMeta) :
    ∀ (fields : List StructField) (k i : Nat) (f : StructField) (r : Result),
      fields[i]? = some f →
      (∀ j g, j < i → fields[j]? = some g →
        ∃ g2, fieldStep intSize g (mh.getD (k + j) {}) = .next g2) →
      fieldStep intSize f (mh.getD (k + i) {}) = .stop r →
      ∀ j g, i ≤ j → fields[j]? = some g →
        (assignLoop intSize mh k fields).1[j]? = some g := by
  intro fields
  induction fields with
  | nil => intro k i f r h; simp at h
  | cons g0 rest ih =>
    intro k i f r hi hbefore hstop j g hij hj
    cases i with
    | zero =>
      simp only [List.getElem?_cons_zero, Option.some.injEq] at hi
      subst hi
      simp only [Nat.add_zero] at hstop
      rw [assignLoop_cons_stop rest hstop]
      exact hj
    | succ i =>
      simp only [List.getElem?_cons_succ] at hi
      obtain ⟨g2, hg2⟩ := hbefore 0 g0 (Nat.succ_pos i) (by simp)
      simp only [Nat.add_zero] at hg2
      rw [assignLoop_cons_next rest hg2]
      cases j with
      | zero => omega
      | succ j =>
        simp only [List.getElem?_cons_succ] at hj ⊢
        have e : k + 1 + i = k + (i + 1) := by omega
        refine ih (k + 1) i f r hi ?_ (by rw [e]; exact hstop) j g (by omega) hj
        intro j2 x hj2 hx
        have e2 : k + 1 + j2 = k + (j2 + 1) := by omega
        rw [e2]
        exact hbefore (j2 + 1) x (by omega) (by simpa using hx)

/-! ## The claims about mandatory fields and the order of errors -/

/-- C13, as amended: for a settable field with the tag `NAME;mandatory;X`
whose lookup key names no entry of the environment (all tags of the record
valid, every entry holding `=`, no earlier field stopping the second loop):
when the default `X` is empty, `Map` returns `MandatoryValueMissing` with the
name of the field; when `X` is not empty, the text elected for the field is
`X`, with no error, and a `string` field ends with the value `X`. -/
theorem Map_mandatory_default (e : EnvToStruct) (environ : List Str) (intSize : Nat)
    (fields : List StructField) (i : Nat) (f : StructField) (n X : Str)
    (htags : ∀ g ∈ fields, (tagParser g.tag).2 = none)
    (henv : ∀ entry ∈ environ, '=' ∈ entry)
    (hi : fields[i]? = some f)
    (hset : CanSet f = true)
    (htag : f.tag = n ++ ';' :: (MANDATORY ++ ';' :: X))
    (hn : ';' ∉ n) (hname : TrimSpace n ≠ []) (hX : ';' ∉ X)
    (hno : ∀ entry ∈ environ, (splitFirstEq entry).1 ≠ e.appName ++ e.separator ++ TrimSpace n)
    (hbefore : ∀ j g, j < i → fields[j]? = some g →
      ∃ g2, fieldStep intSize g ((metaHolderOf e environ fields).getD j {}) = .next g2) :
    (X = [] → (e.Map environ intSize (.pointer fields)).result =
      .error (.envError (MandatoryValueMissing.Field f.name))) ∧
    (X ≠ [] → ((metaHolderOf e environ fields).getD i {}).electValue = (X, none) ∧
      ∀ old, f.value = .string old →
        ∃ out, (e.Map environ intSize (.pointer fields)).target = .pointer out ∧
          out[i]? = some { f with value := .string X }) := by
  obtain ⟨table, htable⟩ := lookUpTable_total environ [] henv
  have hmeta := metaHolderOf_getD e environ fields table htags htable i f hi
  have hparse := tagParser_mandatory_tag hn hname hX
  rw [← htag] at hparse
  have hnone : table.get (e.appName ++ e.separator ++ (tagParser f.tag).1.name) = none := by
    apply lookUpTable_get_none environ table _ htable
    rw [hparse]
    exact hno
  have hcc : crossCheck table (e.appName ++ e.separator) (tagMeta i f) = tagMeta i f := by
    unfold crossCheck
    have : (tagMeta i f).envName = (tagParser f.tag).1.name := rfl
    rw [this, hnone]
  have hreach := Map_reach e environ intSize fields i f htags henv hi hbefore
  rw [hmeta, hcc] at hreach ⊢
  have hne : MandatoryValueMissing ≠ OptionalValueMissing := by decide
  constructor
  · intro hX0
    have helect : (tagMeta i f).electValue = ([], some MandatoryValueMissing) := by
      simp [fieldMeta.electValue, tagMeta, hparse, hX0]
    apply (hreach.2 _ _).1
    unfold fieldStep
    simp only [hset, if_true, helect, hne, if_false]
  · intro hX1
    have helect : (tagMeta i f).electValue = (X, none) := by
      simp [fieldMeta.electValue, tagMeta, hparse, hX1]
    refine ⟨helect, ?_⟩
    intro old hold
    apply hreach.1
    unfold fieldStep
    simp only [hset, if_true, helect, hold]

/-- C13, as amended, on a field `Port int` tagged `PORT;mandatory;` with an
empty environment. -/
theorem Map_mandatory_default_witness :
    (NewEnvParser.Map [] 64 (.pointer
      [ { name := "Port".toList, tag := "PORT;mandatory;".toList, exported := true,
          value := .int 0 } ])).result =
      .error (.envError (MandatoryValueMissing.Field "Port".toList)) :=
  (Map_mandatory_default NewEnvParser [] 64
    [ { name := "Port".toList, tag := "PORT;mandatory;".toList, exported := true,
        value := .int 0 } ] 0
    { name := "Port".toList, tag := "PORT;mandatory;".toList, exported := true, value := .int 0 }
    "PORT".toList [] (by decide) (by decide) (by decide) (by decide) (by decide) (by decide)
    (by decide) (by decide) (by decide) (by intro j g hj; omega)).1 rfl

/-- C13, as it is written, fails for a default that is not empty: the field
`Host string` tagged `HOST;mandatory;localhost`, with an empty environment,
does not make `Map` fail; `Map` returns `nil` and `Host` holds `localhost`. -/
theorem Map_mandatory_default_counterexample :
    NewEnvParser.Map [] 64 (.pointer
      [ { name := "Host".toList, tag := "HOST;mandatory;localhost".toList, exported := true,
          value := .string [] } ]) =
      ⟨.nil, .pointer
        [ { name := "Host".toList, tag := "HOST;mandatory;localhost".toList, exported := true,
            value := .string "localhost".toList } ]⟩ := by
  decide

/-- C14, as amended: `Map` first parses the tags of all fields, and a tag
that is not valid makes it return `InvalidTag` with the record as before;
when all tags are valid and every entry of the environment holds `=`, the
fields are resolved and converted in declared order, and at the first field
whose turn stops the call ends with the result of that turn, the fields before
it hold the values their turns gave them, and that field and the fields after
it are as before the call. -/
theorem Map_abort_order (e : EnvToStruct) (environ : List Str) (intSize : Nat)
    (fields : List StructField) :
    ((∃ f ∈ fields, (tagParser f.tag).2 ≠ none) →
      e.Map environ intSize (.pointer fields) =
        ⟨.error (.envError InvalidTag), .pointer fields⟩) ∧
    ((∀ g ∈ fields, (tagParser g.tag).2 = none) → (∀ entry ∈ environ, '=' ∈ entry) →
      ∀ (i : Nat) (f : StructField) (r : Result), fields[i]? = some f →
        (∀ j g, j < i → fields[j]? = some g →
          ∃ g2, fieldStep intSize g ((metaHolderOf e environ fields).getD j {}) = .next g2) →
        fieldStep intSize f ((metaHolderOf e environ fields).getD i {}) = .stop r →
        (e.Map environ intSize (.pointer fields)).result = r ∧
        ∃ out, (e.Map environ intSize (.pointer fields)).target = .pointer out ∧
          (∀ j g g2, j < i → fields[j]? = some g →
            fieldStep intSize g ((metaHolderOf e environ fields).getD j {}) = .next g2 →
            out[j]? = some g2) ∧
          (∀ j g, i ≤ j → fields[j]? = some g → out[j]? = some g)) := by
  refine ⟨Map_of_invalid_tag e environ intSize fields, ?_⟩
  intro htags henv i f r hi hbefore hstop
  have hb : ∀ j g, j < i → fields[j]? = some g →
      ∃ g2, fieldStep intSize g ((metaHolderOf e environ fields).getD (0 + j) {}) = .next g2 := by
    intro j g hj hg
    rw [Nat.zero_add]
    exact hbefore j g hj hg
  rw [Map_pointer_eq e environ intSize fields htags henv]
  refine ⟨?_, _, rfl, ?_, ?_⟩
  · have h := assignLoop_reach intSize (metaHolderOf e environ fields) fields 0 i f hi hb
    rw [Nat.zero_add] at h
    exact (h.2 r hstop).1
  · intro j g g2 hj hg hstep
    have hbj : ∀ j2 x, j2 < j → fields[j2]? = some x →
        ∃ x2, fieldStep intSize x ((metaHolderOf e environ fields).getD (0 + j2) {}) =
          .next x2 := fun j2 x hj2 hx => hb j2 x (by omega) hx
    have h := assignLoop_reach intSize (metaHolderOf e environ fields) fields 0 j g hg hbj
    rw [Nat.zero_add] at h
    exact h.1 g2 hstep
  · intro j g hij hg
    exact assignLoop_after_stop intSize (metaHolderOf e environ fields) fields 0 i f r hi hb
      (by rw [Nat.zero_add]; exact hstop) j g hij hg

/-- C14, as amended, on a record whose second tag is not valid. -/
theorem Map_abort_order_witness :
    NewEnvParser.Map [] 64 (.pointer
      [ { name := "A".toList, tag := "A;mandatory".toList, exported := true, value := .int 0 },
        { name := "B".toList, tag := ";bad".toList, exported := true, value := .string [] } ]) =
      ⟨.error (.envError InvalidTag), .pointer
        [ { name := "A".toList, tag := "A;mandatory".toList, exported := true, value := .int 0 },
          { name := "B".toList, tag := ";bad".toList, exported := true,
            value := .string [] } ]⟩ :=
  (Map_abort_order NewEnvParser [] 64
    [ { name := "A".toList, tag := "A;mandatory".toList, exported := true, value := .int 0 },
      { name := "B".toList, tag := ";bad".toList, exported := true, value := .string [] } ]).1
    ⟨{ name := "B".toList, tag := ";bad".toList, exported := true, value := .string [] },
     by decide, by decide⟩

/-- C14, as it is written, fails: in the record `A int` tagged `A;mandatory`
and `B string` tagged `;bad`, with an empty environment, the lowest field
that fails is `A`, whose resolution gives `MandatoryValueMissing`, yet `Map`
returns `InvalidTag`, the error of the later field `B`, whose tag was parsed
before any value was resolved. -/
theorem Map_abort_order_counterexample :
    (tagParser "A;mandatory".toList).2 = none ∧
    fieldStep 64
      { name := "A".toList, tag := "A;mandatory".toList, exported := true, value := .int 0 }
      (tagMeta 0
        { name := "A".toList, tag := "A;mandatory".toList, exported := true, value := .int 0 }) =
      .stop (.error (.envError (MandatoryValueMissing.Field "A".toList))) ∧
    (NewEnvParser.Map [] 64 (.pointer
      [ { name := "A".toList, tag := "A;mandatory".toList, exported := true, value := .int 0 },
        { name := "B".toList, tag := ";bad".toList, exported := true,
          value := .string [] } ])).result = .error (.envError InvalidTag) ∧
    InvalidTag ≠ MandatoryValueMissing.Field "A".toList := by
  decide

/-! ## The claims about fields that `Map` passes over -/

/-- C15, as amended: a field that is not settable never stops the second loop
of `Map`, whatever its metadata, and is as before when `Map` ends, whatever
its tag and the environment; its tag is parsed all the same, with the errors
that this can give. -/
theorem Map_unsettable_field (e : EnvToStruct) (environ : List Str) (intSize : Nat) :
    (∀ (f : StructField) (m : fieldMeta), CanSet f = false →
      fieldStep intSize f m = .next f) ∧
    (∀ (fields : List StructField) (i : Nat) (f : StructField), fields[i]? = some f →
      CanSet f = false →
      ∃ out, (e.Map environ intSize (.pointer fields)).target = .pointer out ∧
        out[i]? = some f) := by
  have hstep : ∀ (f : StructField) (m : fieldMeta), CanSet f = false →
      fieldStep intSize f m = .next f := by
    intro f m hset
    unfold fieldStep
    simp [hset]
  refine ⟨hstep, ?_⟩
  intro fields i f hi hset
  apply Map_field_unchanged e environ intSize fields i f hi
  intro g2 hg2
  rw [hstep f _ hset] at hg2
  injection hg2 with h1
  exact h1.symm

/-- C15, as amended, on a field whose name is not exported, with a mandatory
tag and no value. -/
theorem Map_unsettable_field_witness :
    ∃ out, (NewEnvParser.Map [] 64 (.pointer
        [ { name := "secret".toList, tag := "SECRET;mandatory".toList, exported := false,
            value := .string "old".toList } ])).target = .pointer out ∧
      out[0]? = some { name := "secret".toList, tag := "SECRET;mandatory".toList,
                       exported := false, value := .string "old".toList } :=
  (Map_unsettable_field NewEnvParser [] 64).2
    [ { name := "secret".toList, tag := "SECRET;mandatory".toList, exported := false,
        value := .string "old".toList } ] 0
    { name := "secret".toList, tag := "SECRET;mandatory".toList, exported := false,
      value := .string "old".toList } (by decide) (by decide)

/-- C15, as it is written, fails: the field `secret`, which is not exported
and so not settable, with the tag `;x`, makes `Map` return `InvalidTag`. -/
theorem Map_unsettable_field_counterexample :
    CanSet { name := "secret".toList, tag := ";x".toList, exported := false,
             value := .string [] } = false ∧
    (NewEnvParser.Map [] 64 (.pointer
      [ { name := "secret".toList, tag := ";x".toList, exported := false,
          value := .string [] } ])).result = .error (.envError InvalidTag) := by
  decide

/-- A settable field of any kind that `Map` reaches in its second loop, with
a mandatory tag, an empty default and no entry of the environment named by
its lookup key, makes `Map` return `MandatoryValueMissing` with its name. -/
theorem Map_mandatory_of_reach (e : EnvToStruct) (environ : List Str) (intSize : Nat)
    (fields : List StructField) (i : Nat) (f : StructField)
    (htags : ∀ g ∈ fields, (tagParser g.tag).2 = none)
    (henv : ∀ entry ∈ environ, '=' ∈ entry)
    (hi : fields[i]? = some f)
    (hset : CanSet f = true)
    (hmand : (tagParser f.tag).1.mandatory = true)
    (hdef : (tagParser f.tag).1.deftVal = [])
    (hno : ∀ entry ∈ environ,
      (splitFirstEq entry).1 ≠ e.appName ++ e.separator ++ (tagParser f.tag).1.name)
    (hbefore : ∀ j g, j < i → fields[j]? = some g →
      ∃ g2, fieldStep intSize g ((metaHolderOf e environ fields).getD j {}) = .next g2) :
    (e.Map environ intSize (.pointer fields)).result =
      .error (.envError (MandatoryValueMissing.Field f.name)) := by
  obtain ⟨table, htable⟩ := lookUpTable_total environ [] henv
  have hmeta := metaHolderOf_getD e environ fields table htags htable i f hi
  have hnone := lookUpTable_get_none environ table _ htable hno
  have hcc : crossCheck table (e.appName ++ e.separator) (tagMeta i f) = tagMeta i f := by
    unfold crossCheck
    have : (tagMeta i f).envName = (tagParser f.tag).1.name := rfl
    rw [this, hnone]
  have helect : (tagMeta i f).electValue = ([], some MandatoryValueMissing) := by
    simp [fieldMeta.electValue, tagMeta, hmand, hdef]
  have hne : MandatoryValueMissing ≠ OptionalValueMissing := by decide
  have hstep : fieldStep intSize f ((metaHolderOf e environ fields).getD i {}) =
      .stop (.error (.envError (MandatoryValueMissing.Field f.name))) := by
    rw [hmeta, hcc]
    unfold fieldStep
    simp only [hset, if_true, helect, hne, if_false]
  exact ((Map_reach e environ intSize fields i f htags henv hi hbefore).2 _ hstep).1

/-- C16, as amended: a field whose type has a kind other than `Int` and
`String` is as before when `Map` ends, and its turn in the second loop either
goes on with the field as it is, which it does whenever a text is elected for
it, or stops the call with `MandatoryValueMissing` and the name of the field,
which it does when the field is settable and the election gives that error;
it never gives `InvalidValue` and never panics.  When all tags of the record
are valid, every entry of the environment holds `=`, no earlier field stops
the second loop, and such a field is settable with a mandatory tag, an empty
default and no entry named by its lookup key, `Map` returns
`MandatoryValueMissing` with the name of the field. -/
theorem Map_other_kind_field (e : EnvToStruct) (environ : List Str) (intSize : Nat) :
    (∀ (f : StructField) (m : fieldMeta), f.value.isIntOrString = false →
      (fieldStep intSize f m = .next f ∨
        fieldStep intSize f m =
          .stop (.error (.envError (MandatoryValueMissing.Field f.name)))) ∧
      (m.electValue.2 = none → fieldStep intSize f m = .next f) ∧
      (CanSet f = true → m.electValue.2 = some MandatoryValueMissing →
        fieldStep intSize f m =
          .stop (.error (.envError (MandatoryValueMissing.Field f.name))))) ∧
    (∀ (fields : List StructField) (i : Nat) (f : StructField), fields[i]? = some f →
      f.value.isIntOrString = false →
      ∃ out, (e.Map environ intSize (.pointer fields)).target = .pointer out ∧
        out[i]? = some f) ∧
    (∀ (fields : List StructField) (i : Nat) (f : StructField),
      (∀ g ∈ fields, (tagParser g.tag).2 = none) → (∀ entry ∈ environ, '=' ∈ entry) →
      fields[i]? = some f → f.value.isIntOrString = false → CanSet f = true →
      (tagParser f.tag).1.mandatory = true → (tagParser f.tag).1.deftVal = [] →
      (∀ entry ∈ environ,
        (splitFirstEq entry).1 ≠ e.appName ++ e.separator ++ (tagParser f.tag).1.name) →
      (∀ j g, j < i → fields[j]? = some g →
        ∃ g2, fieldStep intSize g ((metaHolderOf e environ fields).getD j {}) = .next g2) →
      (e.Map environ intSize (.pointer fields)).result =
          .error (.envError (MandatoryValueMissing.Field f.name)) ∧
        ∃ out, (e.Map environ intSize (.pointer fields)).target = .pointer out ∧
          out[i]? = some f) := by
  have hstep : ∀ (f : StructField) (m : fieldMeta), f.value.isIntOrString = false →
      (fieldStep intSize f m = .next f ∨
        fieldStep intSize f m =
          .stop (.error (.envError (MandatoryValueMissing.Field f.name)))) ∧
      (m.electValue.2 = none → fieldStep intSize f m = .next f) ∧
      (CanSet f = true → m.electValue.2 = some MandatoryValueMissing →
        fieldStep intSize f m =
          .stop (.error (.envError (MandatoryValueMissing.Field f.name)))) := by
    intro f m hk
    have hne : MandatoryValueMissing ≠ OptionalValueMissing := by decide
    have hel : m.electValue = (m.valueHolder, none) ∨ m.electValue = (m.defVal, none) ∨
        m.electValue = ([], some MandatoryValueMissing) ∨
        m.electValue = ([], some OptionalValueMissing) := by
      unfold fieldMeta.electValue
      split_ifs <;> simp
    unfold fieldStep
    by_cases hset : CanSet f = true
    · simp only [hset, if_true]
      rcases hel with h1 | h1 | h1 | h1 <;> rw [h1] <;>
        cases hv : f.value <;> rw [hv] at hk <;>
        simp [FieldValue.isIntOrString, hne, hne.symm] at hk ⊢
    · simp [hset]
  have hkeep : ∀ (fields : List StructField) (i : Nat) (f : StructField), fields[i]? = some f →
      f.value.isIntOrString = false →
      ∃ out, (e.Map environ intSize (.pointer fields)).target = .pointer out ∧
        out[i]? = some f := by
    intro fields i f hi hk
    apply Map_field_unchanged e environ intSize fields i f hi
    intro g2 hg2
    rcases (hstep f ((metaHolderOf e environ fields).getD i {}) hk).1 with h | h
    · rw [h] at hg2
      injection hg2 with h1
      exact h1.symm
    · rw [h] at hg2
      cases hg2
  refine ⟨hstep, hkeep, ?_⟩
  intro fields i f htags henv hi hk hset hmand hdef hno hbefore
  exact ⟨Map_mandatory_of_reach e environ intSize fields i f htags henv hi hset hmand hdef hno
    hbefore, hkeep fields i f hi hk⟩

/-- C16, as amended, on a field `Debug` of another kind, mandatory and
without value, after a field `Host` that takes its default. -/
theorem Map_other_kind_field_witness :
    (NewEnvParser.Map ["PORT=1".toList] 64 (.pointer
      [ { name := "Host".toList, tag := "HOST;optional;localhost".toList, exported := true,
          value := .string [] },
        { name := "Debug".toList, tag := "DEBUG;mandatory".toList, exported := true,
          value := .other } ])).result =
      .error (.envError (MandatoryValueMissing.Field "Debug".toList)) ∧
    ∃ out, (NewEnvParser.Map ["PORT=1".toList] 64 (.pointer
        [ { name := "Host".toList, tag := "HOST;optional;localhost".toList, exported := true,
            value := .string [] },
          { name := "Debug".toList, tag := "DEBUG;mandatory".toList, exported := true,
            value := .other } ])).target = .pointer out ∧
      out[1]? = some { name := "Debug".toList, tag := "DEBUG;mandatory".toList,
                       exported := true, value := .other } :=
  (Map_other_kind_field NewEnvParser ["PORT=1".toList] 64).2.2
    [ { name := "Host".toList, tag := "HOST;optional;localhost".toList, exported := true,
        value := .string [] },
      { name := "Debug".toList, tag := "DEBUG;mandatory".toList, exported := true,
        value := .other } ] 1
    { name := "Debug".toList, tag := "DEBUG;mandatory".toList, exported := true,
      value := .other }
    (by decide) (by decide) (by decide) (by decide) (by decide) (by decide) (by decide)
    (by decide)
    (by
      intro j g hj hg
      have hj0 : j = 0 := by omega
      subst hj0
      simp only [List.getElem?_cons_zero, Option.some.injEq] at hg
      subst hg
      exact ⟨{ name := "Host".toList, tag := "HOST;optional;localhost".toList, exported := true,
               value := .string "localhost".toList }, by decide⟩)

/-- C16, as it is written, fails: the settable field `Debug` of another kind,
tagged `DEBUG;mandatory`, with an empty environment, makes `Map` return
`MandatoryValueMissing` with the name `Debug`. -/
theorem Map_other_kind_field_counterexample :
    (NewEnvParser.Map [] 64 (.pointer
      [ { name := "Debug".toList, tag := "DEBUG;mandatory".toList, exported := true,
          value := .other } ])).result =
      .error (.envError (MandatoryValueMissing.Field "Debug".toList)) := by
  decide

/-- C17: a field with an empty annotation is looked up under the key made of
the application name and the separator alone.  With the name `demo`, the
separator `_` and the entry `demo_=x`, a `string` field without annotation
ends with the value `x` and an `int` field without annotation makes `Map`
return `InvalidValue`; with both texts empty, an entry whose name is empty
fills the field. -/
theorem Map_empty_tag_bound_to_bare_key :
    tagParser [] = ({ name := [], mandatory := false, deftVal := [] }, none) ∧
    ({ appName := "demo".toList, separator := "_".toList } : EnvToStruct).Map
        ["demo_=x".toList] 64 (.pointer
      [ { name := "Name".toList, tag := [], exported := true, value := .string "old".toList } ]) =
      ⟨.nil, .pointer
        [ { name := "Name".toList, tag := [], exported := true, value := .string "x".toList } ]⟩ ∧
    (({ appName := "demo".toList, separator := "_".toList } : EnvToStruct).Map
        ["demo_=x".toList] 64 (.pointer
      [ { name := "Count".toList, tag := [], exported := true, value := .int 7 } ])).result =
      .error (.envError (InvalidValue.Field "Count".toList)) ∧
    NewEnvParser.Map ["=C:=C:/work".toList] 64 (.pointer
      [ { name := "Name".toList, tag := [], exported := true, value := .string "old".toList } ]) =
      ⟨.nil, .pointer
        [ { name := "Name".toList, tag := [], exported := true,
            value := .string "C:".toList } ]⟩ := by
  decide

/-! ## The claims about extra pieces, the first pass and malformed entries -/

/-- The pieces of a text with a separator in it are the pieces before the
separator and then the pieces after it. -/
theorem Split_append (sep : Char) : ∀ (a b : Str),
    Split sep (a ++ sep :: b) = Split sep a ++ Split sep b := by
  intro a
  induction a with
  | nil => intro b; rw [List.nil_append, Split_cons_sep, Split_nil]; rfl
  | cons c cs ih =>
    intro b
    show Split sep (c :: (cs ++ sep :: b)) = _
    by_cases hc : c = sep
    · subst hc
      rw [Split_cons_sep, Split_cons_sep, ih b]
      rfl
    · rw [Split_cons_ne _ hc, Split_cons_ne _ hc, ih b]
      cases hs : Split sep cs with
      | nil => exact absurd hs (Split_ne_nil sep cs)
      | cons x xs => rfl

theorem getD_append_left {α : Type} (l r : List α) (i : Nat) (d : α) (h : i < l.length) :
    (l ++ r).getD i d = l.getD i d := by
  simp [List.getD, List.getElem?_append_left h]

/-- C18: a tag with at least three pieces and the same tag with `;` and any
text after it have the same result in `tagParser`: the same record and the
same error or absence of error. -/
theorem tagParser_ignores_extra_pieces (t extra : Str) (h : 3 ≤ (Split ';' t).length) :
    tagParser (t ++ ';' :: extra) = tagParser t := by
  have ht : ¬ t.length = 0 := by
    intro h0
    have : t = [] := List.length_eq_zero.mp h0
    subst this
    simp [Split_nil] at h
  have ht2 : ¬ (t ++ ';' :: extra).length = 0 := by simp
  have hsplit := Split_append ';' t extra
  have hlen : (Split ';' t ++ Split ';' extra).length =
      (Split ';' t).length + (Split ';' extra).length := List.length_append _ _
  have h0 := getD_append_left (Split ';' t) (Split ';' extra) 0 [] (by omega)
  have h1 := getD_append_left (Split ';' t) (Split ';' extra) 1 [] (by omega)
  have h2 := getD_append_left (Split ';' t) (Split ';' extra) 2 [] (by omega)
  have l1 : ¬ (Split ';' t).length < 1 := by omega
  have l2 : ¬ (Split ';' t).length < 2 := by omega
  have l3 : ¬ (Split ';' t).length < 3 := by omega
  have m1 : ¬ (Split ';' t ++ Split ';' extra).length < 1 := by omega
  have m2 : ¬ (Split ';' t ++ Split ';' extra).length < 2 := by omega
  have m3 : ¬ (Split ';' t ++ Split ';' extra).length < 3 := by omega
  unfold tagParser tagParserDefault
  simp only [ht, ht2, hsplit, h0, h1, h2, l1, l2, l3, m1, m2, m3, if_false]

/-- C18 on the tag `HOST;mandatory;localhost` with the text `more;and more`
after it. -/
theorem tagParser_ignores_extra_pieces_witness :
    tagParser ("HOST;mandatory;localhost".toList ++ ';' :: "more;and more".toList) =
      tagParser "HOST;mandatory;localhost".toList :=
  tagParser_ignores_extra_pieces "HOST;mandatory;localhost".toList "more;and more".toList
    (by decide)

/-- The first loop of `Map` returns the error of the first field whose tag is
not valid. -/
theorem tagLoop_first_error : ∀ (pre : List StructField) (k : Nat) (f : StructField)
    (post : List StructField) (er : EnvError),
    (∀ g ∈ pre, (tagParser g.tag).2 = none) → (tagParser f.tag).2 = some er →
    tagLoop k (pre ++ f :: post) = .error er := by
  intro pre
  induction pre with
  | nil =>
    intro k f post er _ hf
    rw [List.nil_append, tagLoop]
    rcases hp : tagParser f.tag with ⟨info, e2⟩
    rw [hp] at hf
    simp only at hf
    subst hf
    rfl
  | cons g rest ih =>
    intro k f post er hpre hf
    show tagLoop k (g :: (rest ++ f :: post)) = _
    rw [tagLoop]
    have hg : (tagParser g.tag).2 = none := hpre g (List.mem_cons_self _ _)
    rcases hp : tagParser g.tag with ⟨info, e2⟩
    rw [hp] at hg
    simp only at hg
    subst hg
    simp only [ih (k + 1) f post er (fun x hx => hpre x (List.mem_cons_of_mem _ hx)) hf]

/-- C19: on every record with a tag that is not valid, at whatever position,
and for every environment, `Map` returns `InvalidTag` and the record is as
before the call; the error is the one that `tagParser` gives for the first
field whose tag is not valid; and this is so even when an earlier field
would have failed in value resolution, as `A int` tagged `A;mandatory`
before `B string` tagged `;bad`. -/
theorem Map_invalid_tag_first_pass (e : EnvToStruct) (environ : List Str) (intSize : Nat) :
    (∀ fields : List StructField, (∃ f ∈ fields, (tagParser f.tag).2 ≠ none) →
      e.Map environ intSize (.pointer fields) =
        ⟨.error (.envError InvalidTag), .pointer fields⟩) ∧
    (∀ (pre : List StructField) (f : StructField) (post : List StructField) (er : EnvError),
      (∀ g ∈ pre, (tagParser g.tag).2 = none) → (tagParser f.tag).2 = some er →
      e.Map environ intSize (.pointer (pre ++ f :: post)) =
        ⟨.error (.envError er), .pointer (pre ++ f :: post)⟩) ∧
    (e.Map environ intSize (.pointer
      [ { name := "A".toList, tag := "A;mandatory".toList, exported := true, value := .int 0 },
        { name := "B".toList, tag := ";bad".toList, exported := true,
          value := .string [] } ])).result = .error (.envError InvalidTag) := by
  refine ⟨fun fields h => Map_of_invalid_tag e environ intSize fields h, ?_, ?_⟩
  · intro pre f post er hpre hf
    simp only [EnvToStruct.Map, Target.IsNil, Target.isPtr,
      tagLoop_first_error pre 0 f post er hpre hf]
    rfl
  · rw [Map_of_invalid_tag e environ intSize _
      ⟨{ name := "B".toList, tag := ";bad".toList, exported := true, value := .string [] },
       by decide, by decide⟩]

/-- C19 on a record whose second tag is not valid, with an entry of the
environment that holds no `=`. -/
theorem Map_invalid_tag_first_pass_witness :
    NewEnvParser.Map ["BROKEN".toList] 64 (.pointer
      [ { name := "A".toList, tag := "A;mandatory".toList, exported := true, value := .int 0 },
        { name := "B".toList, tag := ";bad".toList, exported := true, value := .string [] } ]) =
      ⟨.error (.envError InvalidTag), .pointer
        [ { name := "A".toList, tag := "A;mandatory".toList, exported := true, value := .int 0 },
          { name := "B".toList, tag := ";bad".toList, exported := true,
            value := .string [] } ]⟩ :=
  (Map_invalid_tag_first_pass NewEnvParser ["BROKEN".toList] 64).1
    [ { name := "A".toList, tag := "A;mandatory".toList, exported := true, value := .int 0 },
      { name := "B".toList, tag := ";bad".toList, exported := true, value := .string [] } ]
    ⟨{ name := "B".toList, tag := ";bad".toList, exported := true, value := .string [] },
     by decide, by decide⟩

/-- The table is not built when an entry of the environment holds no `=`. -/
theorem lookUpTable_none : ∀ (environ : List Str) (table : Table),
    (∃ entry ∈ environ, '=' ∉ entry) → lookUpTable environ table = none := by
  intro environ
  induction environ with
  | nil => intro table h; obtain ⟨x, hx, -⟩ := h; simp at hx
  | cons entry rest ih =>
    intro table h
    rw [lookUpTable]
    by_cases hm : '=' ∈ entry
    · have h2 : ¬ (Split '=' entry).length < 2 := by
        have := Split_length_of_mem hm
        omega
      simp only [h2, if_false]
      apply ih
      obtain ⟨x, hx, hne⟩ := h
      rcases List.mem_cons.mp hx with h1 | h1
      · subst h1
        exact absurd hm hne
      · exact ⟨x, h1, hne⟩
    · have h2 : (Split '=' entry).length < 2 := by
        rw [Split_of_not_mem hm]
        simp
      simp only [h2, if_true]

/-- C20: the table of `envToHolder` is built exactly when every entry of the
environment holds `=`: for an entry with `=` the split has at least two
pieces and the index 1 is in range, for an entry without `=` it has one piece
and the index 1 is out of range; and then `envToHolder` panics, and with it
the call of `Map` on a record with valid tags, which does not return. -/
theorem lookUpTable_total_iff (environ : List Str) :
    ((∃ table, lookUpTable environ [] = some table) ↔ ∀ entry ∈ environ, '=' ∈ entry) ∧
    (∀ entry : Str, '=' ∈ entry → 2 ≤ (Split '=' entry).length) ∧
    (∀ entry : Str, '=' ∉ entry → (Split '=' entry).length = 1) ∧
    ((∃ entry ∈ environ, '=' ∉ entry) →
      ∀ (e : EnvToStruct) (intSize : Nat) (fields : List StructField) (metas : List fieldMeta),
        e.envToHolder environ (e.appName ++ e.separator) metas = none ∧
        ((∀ g ∈ fields, (tagParser g.tag).2 = none) →
          e.Map environ intSize (.pointer fields) = ⟨.panic, .pointer fields⟩)) := by
  refine ⟨⟨?_, ?_⟩, ?_, ?_, ?_⟩
  · intro h
    by_contra hcon
    have hex : ∃ entry ∈ environ, '=' ∉ entry := by
      by_contra h2
      apply hcon
      intro entry hentry
      by_contra h3
      exact h2 ⟨entry, hentry, h3⟩
    obtain ⟨table, htable⟩ := h
    rw [lookUpTable_none environ [] hex] at htable
    cases htable
  · intro h
    exact lookUpTable_total environ [] h
  · intro entry h
    exact Split_length_of_mem h
  · intro entry h
    rw [Split_of_not_mem h]
    rfl
  · intro hex e intSize fields metas
    have hnone := lookUpTable_none environ [] hex
    have hen : ∀ ms, e.envToHolder environ (e.appName ++ e.separator) ms = none := by
      intro ms
      simp [EnvToStruct.envToHolder, hnone]
    refine ⟨hen metas, ?_⟩
    intro htags
    obtain ⟨ms, hms, -, -⟩ := tagLoop_ok fields 0 htags
    simp only [EnvToStruct.Map, Target.IsNil, Target.isPtr, hms, hen ms]
    rfl

/-- C20 on the scenario record with the entries `PORT=9090` and `BROKEN`. -/
theorem lookUpTable_total_iff_witness :
    NewEnvParser.Map ["PORT=9090".toList, "BROKEN".toList] 64 (.pointer (demoRecord 0 [])) =
      ⟨.panic, .pointer (demoRecord 0 [])⟩ :=
  ((lookUpTable_total_iff ["PORT=9090".toList, "BROKEN".toList]).2.2.2
    ⟨"BROKEN".toList, by decide, by decide⟩ NewEnvParser 64 (demoRecord 0 []) []).2
    (by decide)

end EnvParser
